import Mathlib

/-!
Verification of the per-core scheduler of the xvisor hypervisor
(`core/vmm_scheduler.c`), against its natural-language specification.

The C code is shallowly embedded: the vcpu registry is a `List VCPU`
(the external manager's `vmm_manager_vcpu(i)` is list indexing, and
`vmm_manager_vcpu_count()` is the list length), the scheduler control
block field `sched.vcpu_current` (an `s32` holding a vcpu number or the
sentinel `-1`) is an `Option Nat`, and the unbounded `while` loop of
`vmm_scheduler_next` is written with explicit fuel.  Calls to external
collaborators (`vmm_vcpu_regs_switch`, the per-vcpu `tick_func` hook,
`vmm_timer_event_restart`, `vmm_vcpu_irq_process`) are recorded as
events in the return value instead of being performed.  A function that
can fail to return (the probing loop can run forever) yields `none`.
-/

namespace VmmSched

/-- The vcpu state variant (`VMM_VCPU_STATE_*`). -/
inductive VState where
  | Reset
  | Ready
  | Running
  | Paused
  | Halted
deriving DecidableEq

/-- The fields of `vmm_vcpu_t` that the scheduler reads or writes.
`num` is the vcpu's registry number, `has_tick_func` records whether the
optional `tick_func` callback pointer is non-NULL.  `preempt_count` is
modelled as an unbounded integer so that (non-)negativity is expressible. -/
structure VCPU where
  num : Nat
  state : VState
  preempt_count : Int
  tick_count : Nat
  tick_pending : Nat
  has_tick_func : Bool
deriving DecidableEq

/-- The per-core scheduler control block `sched` together with the vcpu
registry it schedules over.  `vcpu_current = none` models the `-1` sentinel. -/
structure Sched where
  vcpus : List VCPU
  vcpu_current : Option Nat
deriving DecidableEq

/-- `vmm_manager_vcpu`: resolve a vcpu number to a vcpu, NULL for the
`-1` sentinel or an out-of-range number. -/
def vmm_manager_vcpu (vcpus : List VCPU) : Option Nat → Option VCPU
  | some i => vcpus[i]?
  | none => none

/-- Modelled from the spec: the `VMM_VCPU_STATE_SAVEABLE` mask tested by
`cur_vcpu->state & VMM_VCPU_STATE_SAVEABLE` is defined in a vcpu-manager
header that is not part of the sources here; per the spec, the saveable
states (live register content worth preserving) are `Ready` and `Running`. -/
def is_saveable : VState → Bool
  | VState.Ready => true
  | VState.Running => true
  | _ => false

/-- Overwrite the vcpu at registry position `i` (a write through a
pointer obtained from `vmm_manager_vcpu i`); out of range writes nothing. -/
def modifyIdx (l : List VCPU) (i : Nat) (f : VCPU → VCPU) : List VCPU :=
  match l[i]? with
  | some v => l.set i (f v)
  | none => l

/-- The probing `while` loop of `vmm_scheduler_next`: keep advancing
`next = (next + 1) % count` while the candidate's state is not `Ready`
and `next` differs from `sched.vcpu_current`.  The C loop is unbounded;
`fuel` counts the probes still allowed, `none` means the loop is still
running after `fuel` probes. -/
def probeLoop (vcpus : List VCPU) (cur : Option Nat) : Nat → Nat → Option Nat
  | 0, _ => none
  | fuel + 1, next =>
    match vcpus[next]? with
    | none => none
    | some nxt =>
      if nxt.state = VState.Ready ∨ cur = some next then some next
      else probeLoop vcpus cur fuel ((next + 1) % vcpus.length)

/-- The initial candidate index of `vmm_scheduler_next`:
`next = (cur_vcpu ? cur_vcpu->num : -1); next = (next + 1) % count`. -/
def startIdx (s : Sched) : Nat :=
  match vmm_manager_vcpu s.vcpus s.vcpu_current with
  | some c => (c.num + 1) % s.vcpus.length
  | none => 0

/-- `vmm_scheduler_next`.  The result is the updated state paired with
the `vmm_vcpu_regs_switch` call performed, if any, recorded as
`(source vcpu number or none for NULL, destination vcpu number)`.
`none` overall means the probing loop did not exit within
`vmm_manager_vcpu_count()` probes -- and hence never exits, see
`probeLoop_none_forever`. -/
def vmm_scheduler_next (s : Sched) : Option (Sched × Option (Option Nat × Nat)) :=
  let cur_vcpu := vmm_manager_vcpu s.vcpus s.vcpu_current
  match probeLoop s.vcpus s.vcpu_current s.vcpus.length (startIdx s) with
  | none => none
  | some nextIdx =>
    match s.vcpus[nextIdx]? with
    | none => none
    | some nxt0 =>
      let step1 : List VCPU × Option (Option Nat × Nat) :=
        match s.vcpu_current, cur_vcpu with
        | some ci, some c =>
          if c.num ≠ nxt0.num then
            if is_saveable c.state then
              (if c.state = VState.Running then
                 modifyIdx s.vcpus ci (fun v => { v with state := VState.Ready })
               else s.vcpus,
               some (some c.num, nxt0.num))
            else (s.vcpus, some (none, nxt0.num))
          else (s.vcpus, none)
        | _, _ => (s.vcpus, some (none, nxt0.num))
      let vcpus2 := modifyIdx step1.1 nextIdx
        (fun v => { v with tick_pending := v.tick_count, state := VState.Running })
      some ({ vcpus := vcpus2, vcpu_current := some nxt0.num }, step1.2)

/-- Observable effects of one `vmm_scheduler_timer_event` call:
whether `vmm_scheduler_next` ran (and the register switch it performed),
the argument of the `tick_func` call if the hook fired, and how many
times `vmm_timer_event_restart` re-armed the timer. -/
structure TickEv where
  dispatched : Bool
  switch_ev : Option (Option Nat × Nat)
  hook : Option Nat
  restarts : Nat
deriving DecidableEq

/-- `vmm_scheduler_timer_event`; `none` means the call never returns
(the dispatcher's probing loop runs forever). -/
def vmm_scheduler_timer_event (s : Sched) : Option (Sched × TickEv) :=
  match s.vcpu_current, vmm_manager_vcpu s.vcpus s.vcpu_current with
  | some ci, some vcpu =>
    if vcpu.preempt_count = 0 then
      if vcpu.tick_pending = 0 then
        (vmm_scheduler_next s).map (fun p => (p.1, ⟨true, p.2, none, 1⟩))
      else
        some ({ s with vcpus := (modifyIdx s.vcpus ci
                  (fun v => { v with tick_pending := v.tick_pending - 1 })) },
              ⟨false, none,
               if vcpu.has_tick_func ∧ vcpu.preempt_count = 0 then
                 some (vcpu.tick_pending - 1)
               else none,
               1⟩)
    else
      some (s, ⟨false, none, none, 1⟩)
  | _, _ =>
    (vmm_scheduler_next s).map (fun p => (p.1, ⟨true, p.2, none, 1⟩))

/-- What `vmm_scheduler_irq_process` did with the interrupt frame. -/
inductive IrqOutcome where
  | noVcpu
  | dispatched (ev : Option (Option Nat × Nat))
  | delivered
deriving DecidableEq

/-- `vmm_scheduler_irq_process`; `delivered` records the
`vmm_vcpu_irq_process(regs)` call. -/
def vmm_scheduler_irq_process (s : Sched) : Option (Sched × IrqOutcome) :=
  match vmm_manager_vcpu s.vcpus s.vcpu_current with
  | none => some (s, IrqOutcome.noVcpu)
  | some vcpu =>
    if vcpu.state ≠ VState.Running then
      (vmm_scheduler_next s).map (fun p => (p.1, IrqOutcome.dispatched p.2))
    else
      some (s, IrqOutcome.delivered)

/-- `vmm_scheduler_current_vcpu` (the lock acquire/release bracket has no
observable effect in this sequential model). -/
def vmm_scheduler_current_vcpu (s : Sched) : Option VCPU :=
  match s.vcpu_current with
  | some i => s.vcpus[i]?
  | none => none

/-- `vmm_scheduler_preempt_disable`. -/
def vmm_scheduler_preempt_disable (s : Sched) : Sched :=
  match s.vcpu_current, vmm_scheduler_current_vcpu s with
  | some ci, some _ =>
    { s with vcpus := (modifyIdx s.vcpus ci
        (fun v => { v with preempt_count := v.preempt_count + 1 })) }
  | _, _ => s

/-- `vmm_scheduler_preempt_enable`: decrements only when
`vcpu->preempt_count` is non-zero. -/
def vmm_scheduler_preempt_enable (s : Sched) : Sched :=
  match s.vcpu_current, vmm_scheduler_current_vcpu s with
  | some ci, some v =>
    if v.preempt_count ≠ 0 then
      { s with vcpus := (modifyIdx s.vcpus ci
          (fun w => { w with preempt_count := w.preempt_count - 1 })) }
    else s
  | _, _ => s

/-- Return value of `vmm_scheduler_init`. -/
inductive InitRes where
  | ok
  | efail
deriving DecidableEq

/-- The scheduler control fields touched by `vmm_scheduler_init`
(the registry belongs to the manager and is not touched by init). -/
structure SchedCtrl where
  vcpu_current : Option Nat
  ev : Option Nat
deriving DecidableEq

/-- `vmm_scheduler_init`.  `create_result` is what the external
`vmm_timer_event_create` returned (`none` = allocation failed),
`tick_nsecs` is the platform tick period `vmm_timer_tick_nsecs()`.
Returns the control state, the return code, and the list of
`vmm_timer_event_start(handle, period)` calls performed. -/
def vmm_scheduler_init (create_result : Option Nat) (tick_nsecs : Nat) :
    SchedCtrl × InitRes × List (Nat × Nat) :=
  let ctrl : SchedCtrl := { vcpu_current := none, ev := none }
  match create_result with
  | none => ({ ctrl with ev := none }, InitRes.efail, [])
  | some h => ({ ctrl with ev := some h }, InitRes.ok, [(h, tick_nsecs)])

/-- Iterated timer ticks (claim C6): the scheduler state after `n`
consecutive timer events, `none` if some tick never returns. -/
def timerIter : Nat → Sched → Option Sched
  | 0, s => some s
  | n + 1, s =>
    match vmm_scheduler_timer_event s with
    | none => none
    | some (s1, _) => timerIter n s1

/-- The vcpu numbers selected by `n` successive dispatcher invocations. -/
def dispatchTrace : Nat → Sched → Option (List Nat × Sched)
  | 0, s => some ([], s)
  | n + 1, s =>
    match vmm_scheduler_next s with
    | none => none
    | some (s1, _) =>
      match s1.vcpu_current, dispatchTrace n s1 with
      | some j, some (l, s2) => some (j :: l, s2)
      | _, _ => none

/-- A preempt-guard call (claim C7). -/
inductive POp where
  | dis
  | en
deriving DecidableEq

/-- Apply one preempt-guard call. -/
def applyPOp (s : Sched) : POp → Sched
  | POp.dis => vmm_scheduler_preempt_disable s
  | POp.en => vmm_scheduler_preempt_enable s

/-- Apply a sequence of preempt-guard calls, left to right. -/
def applyPOps : Sched → List POp → Sched
  | s, [] => s
  | s, o :: rest => applyPOps (applyPOp s o) rest

/-- State of the vcpu at registry position `j`. -/
def stateAt (s : Sched) (j : Nat) : Option VState :=
  Option.map VCPU.state s.vcpus[j]?

/-- `tick_pending` of the vcpu at registry position `j`. -/
def pendingAt (s : Sched) (j : Nat) : Option Nat :=
  Option.map VCPU.tick_pending s.vcpus[j]?

/-- `tick_count` of the vcpu at registry position `j`. -/
def countAt (s : Sched) (j : Nat) : Option Nat :=
  Option.map VCPU.tick_count s.vcpus[j]?

/-- `preempt_count` of the vcpu at registry position `j` (0 if absent). -/
def pcountAt (s : Sched) (j : Nat) : Int :=
  (Option.map VCPU.preempt_count s.vcpus[j]?).getD 0

/-- Registry well-formedness: every vcpu's `num` is its registry
position (the registry hands out numbers this way), and the current
number, when set, is in range. -/
def SchedWF (s : Sched) : Prop :=
  (∀ i, i < s.vcpus.length → Option.map VCPU.num s.vcpus[i]? = some i) ∧
  (s.vcpu_current.getD 0 < s.vcpus.length ∨ s.vcpu_current = none)

/-- All `preempt_count` fields are non-negative. -/
def NonNegPC (s : Sched) : Prop :=
  ∀ i, i < s.vcpus.length → 0 ≤ pcountAt s i

/-- Exit condition of the probing loop at candidate `j`, as a predicate
on the scheduler state. -/
def exitCond (s : Sched) (j : Nat) : Bool :=
  decide (stateAt s j = some VState.Ready) || decide (s.vcpu_current = some j)

/-- The candidate indices `start, start+1, ..., start+fuel-1` (mod `len`)
that the probing loop examines, in order. -/
def probeSeq (len fuel next : Nat) : List Nat :=
  (List.range fuel).map (fun m => (next + m) % len)

/-- The full cyclic tour of the registry beginning at `start`. -/
def cycFromN (len start : Nat) : List Nat :=
  probeSeq len len start

/-- The positions of `Ready` vcpus in the cyclic probing order from
`start`: the order in which round-robin dispatch should visit them. -/
def readyCyc (s : Sched) (start : Nat) : List Nat :=
  (cycFromN s.vcpus.length start).filter
    (fun j => decide (stateAt s j = some VState.Ready))

/-- The update `vmm_scheduler_next` applies to the selected vcpu:
`tick_pending` reloaded from `tick_count`, state set to `Running`. -/
def promote (v : VCPU) : VCPU :=
  { v with tick_pending := v.tick_count, state := VState.Running }

/-- The update applied to a `Running` current vcpu before a switch. -/
def demote (v : VCPU) : VCPU :=
  { v with state := VState.Ready }

/-- Fixtures for the witness theorems. -/
def sBoot : Sched := ⟨[⟨0, VState.Ready, 0, 2, 0, false⟩], none⟩

def sDead : Sched := ⟨[⟨0, VState.Reset, 0, 1, 1, false⟩], none⟩

def sDead2 : Sched := ⟨[⟨0, VState.Reset, 0, 2, 2, false⟩, ⟨1, VState.Halted, 0, 1, 0, false⟩], none⟩

def sABC : Sched :=
  ⟨[⟨0, VState.Running, 0, 1, 1, true⟩, ⟨1, VState.Ready, 0, 1, 0, false⟩,
    ⟨2, VState.Ready, 0, 1, 0, false⟩], some 0⟩

def sPre : Sched := ⟨[⟨0, VState.Running, 2, 3, 2, true⟩], some 0⟩

def sFall : Sched := ⟨[⟨0, VState.Paused, 0, 3, 0, false⟩, ⟨1, VState.Halted, 0, 4, 0, false⟩], some 0⟩

def sIrqR : Sched := ⟨[⟨0, VState.Ready, 0, 1, 1, false⟩, ⟨1, VState.Ready, 0, 4, 0, false⟩], some 0⟩

instance (s : Sched) : Decidable (SchedWF s) := by
  unfold SchedWF; infer_instance

instance (s : Sched) : Decidable (NonNegPC s) := by
  unfold NonNegPC; infer_instance

theorem modifyIdx_length (l : List VCPU) (i : Nat) (f : VCPU → VCPU) :
    (modifyIdx l i f).length = l.length := by
  unfold modifyIdx
  cases h : l[i]? with
  | none => rfl
  | some v => simp

theorem getElem_modifyIdx (l : List VCPU) (i j : Nat) (f : VCPU → VCPU) :
    (modifyIdx l i f)[j]? = if j = i then Option.map f l[j]? else l[j]? := by
  unfold modifyIdx
  cases h : l[i]? with
  | none =>
    have hi : l.length ≤ i := by
      by_contra hlt
      exact absurd h (by simp [List.getElem?_eq_getElem (by omega : i < l.length)])
    by_cases hij : j = i
    · subst hij; simp [h]
    · simp [hij]
  | some v =>
    have hi : i < l.length := by
      by_contra hlt
      simp [List.getElem?_eq_none (by omega : l.length ≤ i)] at h
    by_cases hij : j = i
    · subst hij
      simp [List.getElem?_set_self, hi, h]
    · simp [List.getElem?_set_ne (fun hh => hij hh.symm), hij]

theorem exitCond_eq (s : Sched) (next : Nat) (v : VCPU) (hv : s.vcpus[next]? = some v) :
    exitCond s next = decide (v.state = VState.Ready ∨ s.vcpu_current = some next) := by
  unfold exitCond stateAt
  rw [hv]
  simp

theorem probeSeq_succ (len fuel next : Nat) (hlt : next < len) :
    probeSeq len (fuel + 1) next =
      next :: probeSeq len fuel ((next + 1) % len) := by
  unfold probeSeq
  rw [List.range_succ_eq_map, List.map_cons, List.map_map]
  refine congrArg₂ _ (by simpa using Nat.mod_eq_of_lt hlt) ?_
  refine List.map_congr_left (fun m hm => ?_)
  show (next + (m + 1)) % len = ((next + 1) % len + m) % len
  rw [Nat.mod_add_mod]
  ring_nf

theorem probeLoop_eq_find (s : Sched) :
    ∀ fuel next, next < s.vcpus.length →
      probeLoop s.vcpus s.vcpu_current fuel next =
        (probeSeq s.vcpus.length fuel next).find? (exitCond s) := by
  intro fuel
  induction fuel with
  | zero => intro next _; rfl
  | succ fuel ih =>
    intro next hlt
    obtain ⟨v, hv⟩ : ∃ v, s.vcpus[next]? = some v :=
      ⟨_, List.getElem?_eq_getElem hlt⟩
    have hlen : 0 < s.vcpus.length := by omega
    rw [probeSeq_succ _ _ _ hlt]
    unfold probeLoop
    rw [hv]
    show (if v.state = VState.Ready ∨ s.vcpu_current = some next then some next
        else probeLoop s.vcpus s.vcpu_current fuel ((next + 1) % s.vcpus.length)) = _
    by_cases hexit : v.state = VState.Ready ∨ s.vcpu_current = some next
    · rw [if_pos hexit, List.find?_cons_of_pos _ (by rw [exitCond_eq s next v hv]; exact decide_eq_true hexit)]
    · rw [if_neg hexit, List.find?_cons_of_neg _ (by rw [exitCond_eq s next v hv]; simpa using hexit)]
      exact ih _ (Nat.mod_lt _ hlen)

theorem find_eq_head_filter {α : Type} (p : α → Bool) :
    ∀ l : List α, l.find? p = (l.filter p).head? := by
  intro l
  induction l with
  | nil => rfl
  | cons a l ih =>
    by_cases h : p a = true
    · rw [List.find?_cons_of_pos _ h, List.filter_cons_of_pos h]
      rfl
    · rw [List.find?_cons_of_neg _ (by simpa using h), List.filter_cons_of_neg (by simpa using h), ih]

theorem mem_probeSeq (len fuel next j : Nat) :
    j ∈ probeSeq len fuel next ↔ ∃ m, m < fuel ∧ (next + m) % len = j := by
  unfold probeSeq
  simp [List.mem_map]

theorem mem_probeSeq_full (len start j : Nat) (hlen : 0 < len) :
    j ∈ probeSeq len len start ↔ j < len := by
  rw [mem_probeSeq]
  constructor
  · rintro ⟨m, _, rfl⟩
    exact Nat.mod_lt _ hlen
  · intro hj
    have htl : start % len < len := Nat.mod_lt _ hlen
    refine ⟨(j + len - start % len) % len, Nat.mod_lt _ hlen, ?_⟩
    rw [← Nat.mod_add_mod, Nat.add_mod_mod]
    have harith : start % len + (j + len - start % len) = j + len := by omega
    rw [harith, Nat.add_mod_right, Nat.mod_eq_of_lt hj]

/-- Fuel-irrelevance of a failed probe: if no index passes the loop's
exit test, the loop never exits, with any amount of fuel.  This is what
justifies running the embedded loop with fuel `N`: `none` at fuel `N`
means true non-termination of the C loop. -/
theorem probeLoop_none_forever (s : Sched)
    (hnone : ∀ j, j < s.vcpus.length → exitCond s j = false) :
    ∀ fuel next, next < s.vcpus.length →
      probeLoop s.vcpus s.vcpu_current fuel next = none := by
  intro fuel
  induction fuel with
  | zero => intro next _; rfl
  | succ fuel ih =>
    intro next hlt
    have hlen : 0 < s.vcpus.length := by omega
    obtain ⟨v, hv⟩ : ∃ v, s.vcpus[next]? = some v :=
      ⟨_, List.getElem?_eq_getElem hlt⟩
    have hexit : ¬(v.state = VState.Ready ∨ s.vcpu_current = some next) := by
      have := hnone next hlt
      rw [exitCond_eq s next v hv] at this
      simpa using this
    unfold probeLoop
    rw [hv]
    show (if v.state = VState.Ready ∨ s.vcpu_current = some next then some next
        else probeLoop s.vcpus s.vcpu_current fuel ((next + 1) % s.vcpus.length)) = _
    rw [if_neg hexit]
    exact ih _ (Nat.mod_lt _ hlen)

theorem startIdx_lt (s : Sched) (hlen : 0 < s.vcpus.length) :
    startIdx s < s.vcpus.length := by
  unfold startIdx
  cases vmm_manager_vcpu s.vcpus s.vcpu_current with
  | none => exact hlen
  | some c => exact Nat.mod_lt _ hlen

/-- If the probing loop exits, it exits on the first index of the cyclic
probe order that passes the exit test. -/
theorem probeLoop_head (s : Sched) (start : Nat) (hstart : start < s.vcpus.length) :
    probeLoop s.vcpus s.vcpu_current s.vcpus.length start =
      ((cycFromN s.vcpus.length start).filter (exitCond s)).head? := by
  rw [probeLoop_eq_find s _ _ hstart, find_eq_head_filter]
  rfl

/-- The probing loop terminates (within `N` probes) whenever some index
passes the exit test; in particular whenever the current vcpu exists. -/
theorem probeLoop_some_of_exit (s : Sched) (hlen : 0 < s.vcpus.length)
    (j : Nat) (hj : j < s.vcpus.length) (hex : exitCond s j = true) :
    ∃ r, probeLoop s.vcpus s.vcpu_current s.vcpus.length (startIdx s) = some r ∧
      r < s.vcpus.length := by
  have hstart := startIdx_lt s hlen
  rw [probeLoop_eq_find s _ _ hstart]
  have hmem : j ∈ probeSeq s.vcpus.length s.vcpus.length (startIdx s) :=
    (mem_probeSeq_full _ _ _ hlen).mpr hj
  have hsome : (List.find? (exitCond s) (probeSeq s.vcpus.length s.vcpus.length (startIdx s))).isSome = true :=
    List.find?_isSome.mpr ⟨j, hmem, hex⟩
  obtain ⟨r, hr⟩ := Option.isSome_iff_exists.mp hsome
  refine ⟨r, hr, ?_⟩
  have := List.mem_of_find?_eq_some hr
  exact (mem_probeSeq_full _ _ _ hlen).mp this

/-- The dispatcher returns whenever some index passes the probe exit
test (a current vcpu in range, or any `Ready` vcpu). -/
theorem next_some_of_exit (s : Sched) (hlen : 0 < s.vcpus.length)
    (j : Nat) (hj : j < s.vcpus.length) (hex : exitCond s j = true) :
    ∃ p, vmm_scheduler_next s = some p := by
  obtain ⟨r, hr, hrlt⟩ := probeLoop_some_of_exit s hlen j hj hex
  obtain ⟨v, hv⟩ : ∃ v, s.vcpus[r]? = some v :=
    ⟨_, List.getElem?_eq_getElem hrlt⟩
  unfold vmm_scheduler_next
  rw [hr]
  simp only [hv]
  exact ⟨_, rfl⟩

theorem next_eq_nocur (s : Sched) (j : Nat) (nxt0 : VCPU)
    (hcur : s.vcpu_current = none)
    (hprobe : probeLoop s.vcpus s.vcpu_current s.vcpus.length (startIdx s) = some j)
    (hj : s.vcpus[j]? = some nxt0) :
    vmm_scheduler_next s =
      some ({ vcpus := modifyIdx s.vcpus j promote, vcpu_current := some nxt0.num },
            some (none, nxt0.num)) := by
  unfold vmm_scheduler_next
  rw [hprobe]
  simp only [hj]
  simp [vmm_manager_vcpu, hcur]
  rfl

theorem next_eq_self (s : Sched) (ci j : Nat) (c nxt0 : VCPU)
    (hcur : s.vcpu_current = some ci) (hc : s.vcpus[ci]? = some c)
    (hprobe : probeLoop s.vcpus s.vcpu_current s.vcpus.length (startIdx s) = some j)
    (hj : s.vcpus[j]? = some nxt0) (hnum : c.num = nxt0.num) :
    vmm_scheduler_next s =
      some ({ vcpus := modifyIdx s.vcpus j promote, vcpu_current := some nxt0.num },
            none) := by
  unfold vmm_scheduler_next
  rw [hprobe]
  simp only [hj]
  simp [vmm_manager_vcpu, hcur, hc, hnum]
  rfl

theorem next_eq_switch_running (s : Sched) (ci j : Nat) (c nxt0 : VCPU)
    (hcur : s.vcpu_current = some ci) (hc : s.vcpus[ci]? = some c)
    (hprobe : probeLoop s.vcpus s.vcpu_current s.vcpus.length (startIdx s) = some j)
    (hj : s.vcpus[j]? = some nxt0) (hnum : c.num ≠ nxt0.num)
    (hst : c.state = VState.Running) :
    vmm_scheduler_next s =
      some ({ vcpus := modifyIdx (modifyIdx s.vcpus ci demote) j promote,
              vcpu_current := some nxt0.num },
            some (some c.num, nxt0.num)) := by
  unfold vmm_scheduler_next
  rw [hprobe]
  simp only [hj]
  simp [vmm_manager_vcpu, hcur, hc, hnum, hst, is_saveable]
  rfl

theorem next_eq_switch_saveable (s : Sched) (ci j : Nat) (c nxt0 : VCPU)
    (hcur : s.vcpu_current = some ci) (hc : s.vcpus[ci]? = some c)
    (hprobe : probeLoop s.vcpus s.vcpu_current s.vcpus.length (startIdx s) = some j)
    (hj : s.vcpus[j]? = some nxt0) (hnum : c.num ≠ nxt0.num)
    (hsav : is_saveable c.state = true) (hst : c.state ≠ VState.Running) :
    vmm_scheduler_next s =
      some ({ vcpus := modifyIdx s.vcpus j promote, vcpu_current := some nxt0.num },
            some (some c.num, nxt0.num)) := by
  unfold vmm_scheduler_next
  rw [hprobe]
  simp only [hj]
  simp [vmm_manager_vcpu, hcur, hc, hnum, hsav, hst]
  rfl

theorem next_eq_switch_cold (s : Sched) (ci j : Nat) (c nxt0 : VCPU)
    (hcur : s.vcpu_current = some ci) (hc : s.vcpus[ci]? = some c)
    (hprobe : probeLoop s.vcpus s.vcpu_current s.vcpus.length (startIdx s) = some j)
    (hj : s.vcpus[j]? = some nxt0) (hnum : c.num ≠ nxt0.num)
    (hsav : is_saveable c.state = false) :
    vmm_scheduler_next s =
      some ({ vcpus := modifyIdx s.vcpus j promote, vcpu_current := some nxt0.num },
            some (none, nxt0.num)) := by
  unfold vmm_scheduler_next
  rw [hprobe]
  simp only [hj]
  simp [vmm_manager_vcpu, hcur, hc, hnum, hsav]
  rfl

theorem lt_of_getElem_some {l : List VCPU} {i : Nat} {v : VCPU}
    (h : l[i]? = some v) : i < l.length := by
  by_contra hle
  rw [List.getElem?_eq_none (by omega)] at h
  cases h

theorem manager_resolve_some {s : Sched} {v : VCPU}
    (h : vmm_manager_vcpu s.vcpus s.vcpu_current = some v) :
    ∃ ci, s.vcpu_current = some ci ∧ s.vcpus[ci]? = some v ∧ ci < s.vcpus.length := by
  cases hc : s.vcpu_current with
  | none => unfold vmm_manager_vcpu at h; rw [hc] at h; cases h
  | some ci =>
    unfold vmm_manager_vcpu at h
    rw [hc] at h
    exact ⟨ci, rfl, h, lt_of_getElem_some h⟩

theorem preempt_enable_zero (s : Sched) (ci : Nat) (v : VCPU)
    (hc : s.vcpu_current = some ci) (hv : s.vcpus[ci]? = some v)
    (h0 : v.preempt_count = 0) :
    vmm_scheduler_preempt_enable s = s := by
  unfold vmm_scheduler_preempt_enable vmm_scheduler_current_vcpu
  simp [hc, hv, h0]

theorem preempt_enable_pos (s : Sched) (ci : Nat) (v : VCPU)
    (hc : s.vcpu_current = some ci) (hv : s.vcpus[ci]? = some v)
    (hne : v.preempt_count ≠ 0) :
    vmm_scheduler_preempt_enable s =
      { s with vcpus := (modifyIdx s.vcpus ci
          (fun w => { w with preempt_count := w.preempt_count - 1 })) } := by
  unfold vmm_scheduler_preempt_enable vmm_scheduler_current_vcpu
  simp [hc, hv, hne]

theorem preempt_disable_eq (s : Sched) (ci : Nat) (v : VCPU)
    (hc : s.vcpu_current = some ci) (hv : s.vcpus[ci]? = some v) :
    vmm_scheduler_preempt_disable s =
      { s with vcpus := (modifyIdx s.vcpus ci
          (fun w => { w with preempt_count := w.preempt_count + 1 })) } := by
  unfold vmm_scheduler_preempt_disable vmm_scheduler_current_vcpu
  simp [hc, hv]

theorem pcountAt_update (s : Sched) (ci i : Nat) (f : VCPU → VCPU) :
    pcountAt { s with vcpus := modifyIdx s.vcpus ci f } i =
      if i = ci then (Option.map VCPU.preempt_count (Option.map f s.vcpus[i]?)).getD 0
      else pcountAt s i := by
  unfold pcountAt
  simp only [getElem_modifyIdx]
  by_cases hic : i = ci
  · simp [hic]
  · simp [hic]

theorem applyPOp_nonneg (s : Sched) (h : NonNegPC s) (o : POp) :
    NonNegPC (applyPOp s o) := by
  cases o with
  | dis =>
    show NonNegPC (vmm_scheduler_preempt_disable s)
    cases hc : s.vcpu_current with
    | none =>
      unfold vmm_scheduler_preempt_disable vmm_scheduler_current_vcpu
      simpa [hc] using h
    | some ci =>
      cases hv : s.vcpus[ci]? with
      | none =>
        unfold vmm_scheduler_preempt_disable vmm_scheduler_current_vcpu
        simpa [hc, hv] using h
      | some v =>
        rw [preempt_disable_eq s ci v hc hv]
        intro i hi
        rw [pcountAt_update]
        simp only [modifyIdx_length] at hi
        by_cases hic : i = ci
        · subst hic
          rw [if_pos rfl, hv]
          have := h i hi
          unfold pcountAt at this
          rw [hv] at this
          simp at this ⊢
          omega
        · rw [if_neg hic]
          exact h i hi
  | en =>
    show NonNegPC (vmm_scheduler_preempt_enable s)
    cases hc : s.vcpu_current with
    | none =>
      unfold vmm_scheduler_preempt_enable vmm_scheduler_current_vcpu
      simpa [hc] using h
    | some ci =>
      cases hv : s.vcpus[ci]? with
      | none =>
        unfold vmm_scheduler_preempt_enable vmm_scheduler_current_vcpu
        simpa [hc, hv] using h
      | some v =>
        by_cases h0 : v.preempt_count = 0
        · rw [preempt_enable_zero s ci v hc hv h0]
          exact h
        · rw [preempt_enable_pos s ci v hc hv h0]
          intro i hi
          rw [pcountAt_update]
          simp only [modifyIdx_length] at hi
          by_cases hic : i = ci
          · subst hic
            rw [if_pos rfl, hv]
            have := h i hi
            unfold pcountAt at this
            rw [hv] at this
            simp at this ⊢
            omega
          · rw [if_neg hic]
            exact h i hi

theorem applyPOps_nonneg : ∀ (ops : List POp) (s : Sched),
    NonNegPC s → NonNegPC (applyPOps s ops) := by
  intro ops
  induction ops with
  | nil => intro s h; exact h
  | cons o rest ih => intro s h; exact ih _ (applyPOp_nonneg s h o)

theorem next_some_len_pos {s : Sched} {p : Sched × Option (Option Nat × Nat)}
    (h : vmm_scheduler_next s = some p) : 0 < s.vcpus.length := by
  by_contra h0
  have hlen : s.vcpus.length = 0 := by omega
  unfold vmm_scheduler_next at h
  rw [hlen] at h
  simp [probeLoop] at h

theorem probeLoop_result_lt (s : Sched) (hlen : 0 < s.vcpus.length) (j : Nat)
    (h : probeLoop s.vcpus s.vcpu_current s.vcpus.length (startIdx s) = some j) :
    j < s.vcpus.length ∧ exitCond s j = true := by
  rw [probeLoop_eq_find s _ _ (startIdx_lt s hlen)] at h
  exact ⟨(mem_probeSeq_full _ _ _ hlen).mp (List.mem_of_find?_eq_some h),
    List.find?_some h⟩

theorem next_some_elim {s : Sched} {p : Sched × Option (Option Nat × Nat)}
    (h : vmm_scheduler_next s = some p) :
    ∃ j0 nxt0, 0 < s.vcpus.length ∧
      probeLoop s.vcpus s.vcpu_current s.vcpus.length (startIdx s) = some j0 ∧
      s.vcpus[j0]? = some nxt0 ∧ j0 < s.vcpus.length ∧ exitCond s j0 = true := by
  have hlen := next_some_len_pos h
  cases hp : probeLoop s.vcpus s.vcpu_current s.vcpus.length (startIdx s) with
  | none =>
    unfold vmm_scheduler_next at h
    rw [hp] at h
    cases h
  | some j0 =>
    obtain ⟨hj0lt, hex⟩ := probeLoop_result_lt s hlen j0 hp
    exact ⟨j0, _, hlen, rfl, List.getElem?_eq_getElem hj0lt, hj0lt, hex⟩

theorem modify_promote_state (X : List VCPU) (j : Nat) (hj : j < X.length) :
    Option.map VCPU.state (modifyIdx X j promote)[j]? = some VState.Running := by
  obtain ⟨w, hw⟩ : ∃ w, X[j]? = some w := ⟨_, List.getElem?_eq_getElem hj⟩
  rw [getElem_modifyIdx]
  simp [hw, promote]

theorem modify_promote_pending (X : List VCPU) (j : Nat) (hj : j < X.length) :
    Option.map VCPU.tick_pending (modifyIdx X j promote)[j]? =
      Option.map VCPU.tick_count (modifyIdx X j promote)[j]? := by
  obtain ⟨w, hw⟩ : ∃ w, X[j]? = some w := ⟨_, List.getElem?_eq_getElem hj⟩
  rw [getElem_modifyIdx]
  simp [hw, promote]

/-- Complete case description of a successful dispatch on a well-formed
state: the selected index, the probe success, and per-case the registry
update and register-exchange event. -/
theorem next_some_cases {s s1 : Sched} {ev : Option (Option Nat × Nat)}
    (hWF : SchedWF s) (h : vmm_scheduler_next s = some (s1, ev)) :
    ∃ j0 nxt0, 0 < s.vcpus.length ∧
      probeLoop s.vcpus s.vcpu_current s.vcpus.length (startIdx s) = some j0 ∧
      s.vcpus[j0]? = some nxt0 ∧ j0 < s.vcpus.length ∧ nxt0.num = j0 ∧
      exitCond s j0 = true ∧ s1.vcpu_current = some j0 ∧
      ((s.vcpu_current = none ∧ s1.vcpus = modifyIdx s.vcpus j0 promote ∧
          ev = some (none, j0)) ∨
       (∃ ci c, s.vcpu_current = some ci ∧ s.vcpus[ci]? = some c ∧ c.num = ci ∧
         ((ci = j0 ∧ s1.vcpus = modifyIdx s.vcpus j0 promote ∧ ev = none) ∨
          (ci ≠ j0 ∧ c.state = VState.Running ∧
            s1.vcpus = modifyIdx (modifyIdx s.vcpus ci demote) j0 promote ∧
            ev = some (some ci, j0)) ∨
          (ci ≠ j0 ∧ c.state ≠ VState.Running ∧ is_saveable c.state = true ∧
            s1.vcpus = modifyIdx s.vcpus j0 promote ∧ ev = some (some ci, j0)) ∨
          (ci ≠ j0 ∧ is_saveable c.state = false ∧
            s1.vcpus = modifyIdx s.vcpus j0 promote ∧ ev = some (none, j0))))) := by
  obtain ⟨j0, nxt0, hlen, hp, hj, hjlt, hex⟩ := next_some_elim h
  have hnum : nxt0.num = j0 := by
    have := hWF.1 j0 hjlt
    rw [hj] at this
    simpa using this
  refine ⟨j0, nxt0, hlen, hp, hj, hjlt, hnum, hex, ?_⟩
  cases hc : s.vcpu_current with
  | none =>
    have heq := (next_eq_nocur s j0 nxt0 hc hp hj).symm.trans h
    rw [Option.some.injEq, Prod.mk.injEq] at heq
    obtain ⟨hA, hB⟩ := heq
    rw [← hA, ← hB, hnum]
    exact ⟨rfl, Or.inl ⟨rfl, rfl, rfl⟩⟩
  | some ci =>
    obtain ⟨c, hcc⟩ : ∃ c, s.vcpus[ci]? = some c := by
      rcases hWF.2 with hlt | hnone
      · rw [hc] at hlt
        exact ⟨_, List.getElem?_eq_getElem (by simpa using hlt)⟩
      · rw [hc] at hnone
        cases hnone
    have hcnum : c.num = ci := by
      have := hWF.1 ci (lt_of_getElem_some hcc)
      rw [hcc] at this
      simpa using this
    by_cases hsame : c.num = nxt0.num
    · have heq := (next_eq_self s ci j0 c nxt0 hc hcc hp hj hsame).symm.trans h
      rw [Option.some.injEq, Prod.mk.injEq] at heq
      obtain ⟨hA, hB⟩ := heq
      rw [← hA, ← hB, hnum]
      refine ⟨rfl, Or.inr ⟨ci, c, rfl, hcc, hcnum, Or.inl ⟨?_, rfl, rfl⟩⟩⟩
      omega
    · have hcij : ci ≠ j0 := by omega
      by_cases hsav : is_saveable c.state = true
      · by_cases hst : c.state = VState.Running
        · have heq := (next_eq_switch_running s ci j0 c nxt0 hc hcc hp hj hsame hst).symm.trans h
          rw [Option.some.injEq, Prod.mk.injEq] at heq
          obtain ⟨hA, hB⟩ := heq
          rw [← hA, ← hB, hnum, hcnum]
          exact ⟨rfl, Or.inr ⟨ci, c, rfl, hcc, hcnum,
            Or.inr (Or.inl ⟨hcij, hst, rfl, rfl⟩)⟩⟩
        · have heq := (next_eq_switch_saveable s ci j0 c nxt0 hc hcc hp hj hsame hsav hst).symm.trans h
          rw [Option.some.injEq, Prod.mk.injEq] at heq
          obtain ⟨hA, hB⟩ := heq
          rw [← hA, ← hB, hnum, hcnum]
          exact ⟨rfl, Or.inr ⟨ci, c, rfl, hcc, hcnum,
            Or.inr (Or.inr (Or.inl ⟨hcij, hst, hsav, rfl, rfl⟩))⟩⟩
      · have hsav2 : is_saveable c.state = false := by simpa using hsav
        have heq := (next_eq_switch_cold s ci j0 c nxt0 hc hcc hp hj hsame hsav2).symm.trans h
        rw [Option.some.injEq, Prod.mk.injEq] at heq
        obtain ⟨hA, hB⟩ := heq
        rw [← hA, ← hB, hnum]
        exact ⟨rfl, Or.inr ⟨ci, c, rfl, hcc, hcnum,
          Or.inr (Or.inr (Or.inr ⟨hcij, hsav2, rfl, rfl⟩))⟩⟩

/-- C4 (amended): for every scheduler state with a non-empty registry,
the candidate-probing loop of `vmm_scheduler_next` visits at most `N`
indices and terminates, provided there is a current vcpu or at least one
vcpu is `Ready`.  (The unamended claim also covers the state with no
current vcpu and no `Ready` vcpu, where the loop in fact never
terminates: see the counterexample and `probeLoop_none_forever`.) -/
theorem C4_probe_terminates (s : Sched) (hlen : 0 < s.vcpus.length)
    (h : vmm_manager_vcpu s.vcpus s.vcpu_current ≠ none ∨
         ∃ j, j < s.vcpus.length ∧ stateAt s j = some VState.Ready) :
    ∃ p, vmm_scheduler_next s = some p := by
  rcases h with hcur | ⟨j, hj, hready⟩
  · obtain ⟨v, hv⟩ := Option.ne_none_iff_exists'.mp hcur
    obtain ⟨ci, hc, hvc, hcl⟩ := manager_resolve_some hv
    exact next_some_of_exit s hlen ci hcl (by simp [exitCond, hc])
  · exact next_some_of_exit s hlen j hj (by simp [exitCond, hready])

/-- C4 witness: a bootable state (no current vcpu, one `Ready` vcpu)
satisfies the hypotheses and the dispatcher terminates on it. -/
theorem C4_witness :
    0 < sBoot.vcpus.length ∧
    (vmm_manager_vcpu sBoot.vcpus sBoot.vcpu_current ≠ none ∨
      ∃ j, j < sBoot.vcpus.length ∧ stateAt sBoot j = some VState.Ready) ∧
    ∃ p, vmm_scheduler_next sBoot = some p :=
  ⟨by decide, Or.inr ⟨0, by decide, by decide⟩,
   C4_probe_terminates sBoot (by decide) (Or.inr ⟨0, by decide, by decide⟩)⟩

/-- C4 counterexample: with one vcpu in state `Reset` and no current
vcpu, the probing loop does not exit within `N` probes (and by
`probeLoop_none_forever` never exits): `vmm_scheduler_next` diverges,
refuting "always terminates, including the case where there is no
current vcpu and no vcpu is Ready". -/
theorem C4_counterexample : vmm_scheduler_next sDead = none := by decide

/-- C6: while the current vcpu's `preempt_count` is positive, any number
of consecutive timer ticks leave the whole scheduler state -- in
particular `SchedulerState.current` and the current vcpu's `tick_pending`
and state -- unchanged. -/
theorem C6_preempt_suppresses (s : Sched) (v : VCPU)
    (hres : vmm_manager_vcpu s.vcpus s.vcpu_current = some v)
    (hp : 0 < v.preempt_count) (n : Nat) :
    timerIter n s = some s := by
  induction n with
  | zero => rfl
  | succ n ih =>
    obtain ⟨ci, hc, hv, _⟩ := manager_resolve_some hres
    have hne : ¬ v.preempt_count = 0 := by omega
    have hstep : vmm_scheduler_timer_event s = some (s, ⟨false, none, none, 1⟩) := by
      unfold vmm_scheduler_timer_event
      simp [hc, vmm_manager_vcpu, hv, hne]
    unfold timerIter
    rw [hstep]
    exact ih

/-- C6 witness: with `preempt_count = 2` on the current vcpu, three
consecutive ticks change nothing. -/
theorem C6_witness :
    vmm_manager_vcpu sPre.vcpus sPre.vcpu_current = some ⟨0, VState.Running, 2, 3, 2, true⟩ ∧
    (0 : Int) < 2 ∧ timerIter 3 sPre = some sPre :=
  ⟨by decide, by decide,
   C6_preempt_suppresses sPre ⟨0, VState.Running, 2, 3, 2, true⟩ (by decide) (by decide) 3⟩

/-- C7: `preempt_enable` decrements the current vcpu's `preempt_count`
only when it is positive and is a silent no-op at zero, while
`preempt_disable` increments it; hence under any sequence of
disable/enable calls all `preempt_count` fields stay non-negative, and
`preempt_enable` at zero leaves zero. -/
theorem C7_preempt_counter :
    (∀ s ops, NonNegPC s → NonNegPC (applyPOps s ops)) ∧
    (∀ s ci v, s.vcpu_current = some ci → s.vcpus[ci]? = some v →
       v.preempt_count = 0 → vmm_scheduler_preempt_enable s = s) ∧
    (∀ s ci v, s.vcpu_current = some ci → s.vcpus[ci]? = some v →
       0 < v.preempt_count →
       pcountAt (vmm_scheduler_preempt_enable s) ci = v.preempt_count - 1) ∧
    (∀ s ci v, s.vcpu_current = some ci → s.vcpus[ci]? = some v →
       pcountAt (vmm_scheduler_preempt_disable s) ci = v.preempt_count + 1) := by
  refine ⟨fun s ops h => applyPOps_nonneg ops s h, ?_, ?_, ?_⟩
  · intro s ci v hc hv h0
    exact preempt_enable_zero s ci v hc hv h0
  · intro s ci v hc hv hpos
    rw [preempt_enable_pos s ci v hc hv (by omega), pcountAt_update, if_pos rfl, hv]
    rfl
  · intro s ci v hc hv
    rw [preempt_disable_eq s ci v hc hv, pcountAt_update, if_pos rfl, hv]
    rfl

/-- C7 witness: a concrete disable/enable/enable/enable sequence on a
zero-count vcpu keeps the count non-negative, and the no-op/decrement/
increment equations hold on concrete states. -/
theorem C7_witness :
    (NonNegPC sABC ∧
      NonNegPC (applyPOps sABC [POp.dis, POp.en, POp.en, POp.en])) ∧
    (sABC.vcpu_current = some 0 ∧
      sABC.vcpus[0]? = some ⟨0, VState.Running, 0, 1, 1, true⟩ ∧
      vmm_scheduler_preempt_enable sABC = sABC) ∧
    (sPre.vcpu_current = some 0 ∧
      sPre.vcpus[0]? = some ⟨0, VState.Running, 2, 3, 2, true⟩ ∧
      pcountAt (vmm_scheduler_preempt_enable sPre) 0 = 1) ∧
    (pcountAt (vmm_scheduler_preempt_disable sPre) 0 = 3) :=
  ⟨⟨by decide, C7_preempt_counter.1 sABC [POp.dis, POp.en, POp.en, POp.en] (by decide)⟩,
   ⟨by decide, by decide,
    C7_preempt_counter.2.1 sABC 0 ⟨0, VState.Running, 0, 1, 1, true⟩ rfl (by decide) (by decide)⟩,
   ⟨by decide, by decide, by
    have := C7_preempt_counter.2.2.1 sPre 0 ⟨0, VState.Running, 2, 3, 2, true⟩ rfl (by decide) (by decide)
    simpa using this⟩,
   by
    have := C7_preempt_counter.2.2.2 sPre 0 ⟨0, VState.Running, 2, 3, 2, true⟩ rfl (by decide)
    simpa using this⟩

/-- C8: on IRQ entry, no current vcpu means return untouched; a current
vcpu that is not `Running` forces a dispatch and the interrupt is not
delivered; a `Running` current vcpu gets the frame delivered to the
vcpu-level interrupt-processing collaborator with no dispatch. -/
theorem C8_irq_gate (s : Sched) :
    (vmm_manager_vcpu s.vcpus s.vcpu_current = none →
       vmm_scheduler_irq_process s = some (s, IrqOutcome.noVcpu)) ∧
    (∀ v, vmm_manager_vcpu s.vcpus s.vcpu_current = some v →
       (v.state ≠ VState.Running →
          ∃ s1 ev, vmm_scheduler_irq_process s = some (s1, IrqOutcome.dispatched ev)) ∧
       (v.state = VState.Running →
          vmm_scheduler_irq_process s = some (s, IrqOutcome.delivered))) := by
  constructor
  · intro h
    unfold vmm_scheduler_irq_process
    rw [h]
  · intro v hv
    constructor
    · intro hns
      obtain ⟨ci, hc, hvc, hcl⟩ := manager_resolve_some hv
      have hlen : 0 < s.vcpus.length := by omega
      obtain ⟨p, hp⟩ := next_some_of_exit s hlen ci hcl (by simp [exitCond, hc])
      unfold vmm_scheduler_irq_process
      rw [hv]
      simp [hns, hp]
    · intro hr
      unfold vmm_scheduler_irq_process
      rw [hv]
      simp [hr]

/-- C8 witness: an interrupt arriving while the current vcpu is `Ready`
(stale) forces a dispatch; one arriving while it is `Running` is
delivered. -/
theorem C8_witness :
    (vmm_manager_vcpu sIrqR.vcpus sIrqR.vcpu_current = some ⟨0, VState.Ready, 0, 1, 1, false⟩ ∧
      ∃ s1 ev, vmm_scheduler_irq_process sIrqR = some (s1, IrqOutcome.dispatched ev)) ∧
    (vmm_manager_vcpu sABC.vcpus sABC.vcpu_current = some ⟨0, VState.Running, 0, 1, 1, true⟩ ∧
      vmm_scheduler_irq_process sABC = some (sABC, IrqOutcome.delivered)) :=
  ⟨⟨by decide,
    ((C8_irq_gate sIrqR).2 ⟨0, VState.Ready, 0, 1, 1, false⟩ (by decide)).1 (by decide)⟩,
   ⟨by decide,
    ((C8_irq_gate sABC).2 ⟨0, VState.Running, 0, 1, 1, true⟩ (by decide)).2 rfl⟩⟩

/-- C9: `vmm_scheduler_init` zeroes the control state and sets current
to the none sentinel; if timer-event allocation fails it returns the
failure code with no `vmm_timer_event_start` performed and the zeroed
state intact; on success it starts the timer exactly once with the
platform tick period and returns success. -/
theorem C9_init :
    (∀ t, vmm_scheduler_init none t =
       ({ vcpu_current := none, ev := none }, InitRes.efail, [])) ∧
    (∀ h t, vmm_scheduler_init (some h) t =
       ({ vcpu_current := none, ev := some h }, InitRes.ok, [(h, t)])) :=
  ⟨fun _ => rfl, fun _ _ => rfl⟩

/-- C3: every successful dispatch leaves the selected vcpu `Running`
with `tick_pending` reloaded to `tick_count`, and `current` naming it. -/
theorem C3_dispatch_post (s s1 : Sched) (ev : Option (Option Nat × Nat))
    (hWF : SchedWF s) (h : vmm_scheduler_next s = some (s1, ev)) :
    ∃ j, s1.vcpu_current = some j ∧ stateAt s1 j = some VState.Running ∧
      pendingAt s1 j = countAt s1 j := by
  obtain ⟨j0, nxt0, hlen, hp, hj, hjlt, hnum, hex, hcur1, hbr⟩ := next_some_cases hWF h
  refine ⟨j0, hcur1, ?_⟩
  have hshape : ∃ X : List VCPU, s1.vcpus = modifyIdx X j0 promote ∧
      X.length = s.vcpus.length := by
    rcases hbr with ⟨_, hv1, _⟩ | ⟨ci, c, _, _, _, hcase⟩
    · exact ⟨s.vcpus, hv1, rfl⟩
    · rcases hcase with ⟨_, hv1, _⟩ | ⟨_, _, hv1, _⟩ | ⟨_, _, _, hv1, _⟩ | ⟨_, _, hv1, _⟩
      · exact ⟨s.vcpus, hv1, rfl⟩
      · exact ⟨modifyIdx s.vcpus ci demote, hv1, modifyIdx_length _ _ _⟩
      · exact ⟨s.vcpus, hv1, rfl⟩
      · exact ⟨s.vcpus, hv1, rfl⟩
  obtain ⟨X, hXv, hXlen⟩ := hshape
  have hjX : j0 < X.length := by rw [hXlen]; exact hjlt
  unfold stateAt pendingAt countAt
  rw [hXv]
  exact ⟨modify_promote_state X j0 hjX, modify_promote_pending X j0 hjX⟩

/-- C3 witness: dispatching from the three-vcpu scenario state selects
vcpu 1, which ends `Running` with `tick_pending = tick_count` and
`current = 1`. -/
theorem C3_witness :
    SchedWF sABC ∧
    vmm_scheduler_next sABC =
      some (⟨[⟨0, VState.Ready, 0, 1, 1, true⟩, ⟨1, VState.Running, 0, 1, 1, false⟩,
              ⟨2, VState.Ready, 0, 1, 0, false⟩], some 1⟩, some (some 0, 1)) ∧
    ∃ j, (⟨[⟨0, VState.Ready, 0, 1, 1, true⟩, ⟨1, VState.Running, 0, 1, 1, false⟩,
            ⟨2, VState.Ready, 0, 1, 0, false⟩], some 1⟩ : Sched).vcpu_current = some j ∧
      stateAt ⟨[⟨0, VState.Ready, 0, 1, 1, true⟩, ⟨1, VState.Running, 0, 1, 1, false⟩,
                ⟨2, VState.Ready, 0, 1, 0, false⟩], some 1⟩ j = some VState.Running ∧
      pendingAt ⟨[⟨0, VState.Ready, 0, 1, 1, true⟩, ⟨1, VState.Running, 0, 1, 1, false⟩,
                  ⟨2, VState.Ready, 0, 1, 0, false⟩], some 1⟩ j =
        countAt ⟨[⟨0, VState.Ready, 0, 1, 1, true⟩, ⟨1, VState.Running, 0, 1, 1, false⟩,
                  ⟨2, VState.Ready, 0, 1, 0, false⟩], some 1⟩ j :=
  ⟨by decide, by decide,
   C3_dispatch_post sABC _ (some (some 0, 1)) (by decide) (by decide)⟩

/-- C2: a successful dispatch performs the register exchange iff there
was no current vcpu or the selection differs from it; a saveable current
is passed as the exchange source (demoted to `Ready` first if it was
`Running`), a non-saveable current gives a cold exchange with absent
source. -/
theorem C2_switch_policy (s s1 : Sched) (ev : Option (Option Nat × Nat))
    (hWF : SchedWF s) (h : vmm_scheduler_next s = some (s1, ev)) :
    ∃ j, s1.vcpu_current = some j ∧
      (ev ≠ none ↔ (vmm_manager_vcpu s.vcpus s.vcpu_current = none ∨
        Option.map VCPU.num (vmm_manager_vcpu s.vcpus s.vcpu_current) ≠ some j)) ∧
      (vmm_manager_vcpu s.vcpus s.vcpu_current = none → ev = some (none, j)) ∧
      (∀ ci c, s.vcpu_current = some ci → s.vcpus[ci]? = some c → ci ≠ j →
        (is_saveable c.state = true →
          ev = some (some ci, j) ∧
          (c.state = VState.Running → stateAt s1 ci = some VState.Ready)) ∧
        (is_saveable c.state = false → ev = some (none, j))) := by
  obtain ⟨j0, nxt0, hlen, hp, hj, hjlt, hnum, hex, hcur1, hbr⟩ := next_some_cases hWF h
  refine ⟨j0, hcur1, ?_, ?_, ?_⟩
  · rcases hbr with ⟨hc0, hv1, hev⟩ | ⟨ci, c, hc0, hcc, hcnum, hcase⟩
    · simp [vmm_manager_vcpu, hc0, hev]
    · rcases hcase with ⟨hij, hv1, hev⟩ | ⟨hij, hst, hv1, hev⟩ |
        ⟨hij, hst, hsav, hv1, hev⟩ | ⟨hij, hsav, hv1, hev⟩
      · subst hij
        simp [vmm_manager_vcpu, hc0, hcc, hev, hcnum]
      · simp [vmm_manager_vcpu, hc0, hcc, hev, hcnum, hij]
      · simp [vmm_manager_vcpu, hc0, hcc, hev, hcnum, hij]
      · simp [vmm_manager_vcpu, hc0, hcc, hev, hcnum, hij]
  · intro hres
    rcases hbr with ⟨hc0, hv1, hev⟩ | ⟨ci, c, hc0, hcc, hcnum, hcase⟩
    · exact hev
    · simp [vmm_manager_vcpu, hc0, hcc] at hres
  · intro ci c hc0 hcc hcij
    rcases hbr with ⟨hcnone, _, _⟩ | ⟨ci2, c2, hc02, hcc2, hcnum2, hcase⟩
    · rw [hc0] at hcnone; cases hcnone
    · have hci : ci2 = ci := by
        rw [hc0] at hc02
        exact (Option.some.injEq _ _ ▸ hc02).symm
      subst hci
      have hcsame : c2 = c := by
        rw [hcc] at hcc2
        exact (Option.some.injEq _ _ ▸ hcc2).symm
      subst hcsame
      rcases hcase with ⟨hij, hv1, hev⟩ | ⟨hij, hst, hv1, hev⟩ |
        ⟨hij, hst, hsav, hv1, hev⟩ | ⟨hij, hsav, hv1, hev⟩
      · exact absurd hij hcij
      · constructor
        · intro _
          refine ⟨hev, fun _ => ?_⟩
          unfold stateAt
          rw [hv1, getElem_modifyIdx, if_neg hcij, getElem_modifyIdx, if_pos rfl, hcc]
          simp [demote]
        · intro hsavf
          rw [hst] at hsavf
          simp [is_saveable] at hsavf
      · constructor
        · intro _
          exact ⟨hev, fun hr => absurd hr hst⟩
        · intro hsavf
          rw [hsavf] at hsav
          cases hsav
      · constructor
        · intro hsavt
          rw [hsavt] at hsav
          cases hsav
        · intro _
          exact hev

/-- C2 witness: dispatching from the three-vcpu scenario state performs
an exchange with the demoted `Running` current vcpu 0 as source and
vcpu 1 as destination. -/
theorem C2_witness :
    SchedWF sABC ∧
    vmm_scheduler_next sABC =
      some (⟨[⟨0, VState.Ready, 0, 1, 1, true⟩, ⟨1, VState.Running, 0, 1, 1, false⟩,
              ⟨2, VState.Ready, 0, 1, 0, false⟩], some 1⟩, some (some 0, 1)) ∧
    ∃ j, (⟨[⟨0, VState.Ready, 0, 1, 1, true⟩, ⟨1, VState.Running, 0, 1, 1, false⟩,
            ⟨2, VState.Ready, 0, 1, 0, false⟩], some 1⟩ : Sched).vcpu_current = some j ∧
      ((some (some 0, 1) : Option (Option Nat × Nat)) ≠ none ↔
        (vmm_manager_vcpu sABC.vcpus sABC.vcpu_current = none ∨
          Option.map VCPU.num (vmm_manager_vcpu sABC.vcpus sABC.vcpu_current) ≠ some j)) ∧
      (vmm_manager_vcpu sABC.vcpus sABC.vcpu_current = none →
        (some (some 0, 1) : Option (Option Nat × Nat)) = some (none, j)) ∧
      (∀ ci c, sABC.vcpu_current = some ci → sABC.vcpus[ci]? = some c → ci ≠ j →
        (is_saveable c.state = true →
          (some (some 0, 1) : Option (Option Nat × Nat)) = some (some ci, j) ∧
          (c.state = VState.Running →
            stateAt ⟨[⟨0, VState.Ready, 0, 1, 1, true⟩, ⟨1, VState.Running, 0, 1, 1, false⟩,
                      ⟨2, VState.Ready, 0, 1, 0, false⟩], some 1⟩ ci = some VState.Ready)) ∧
        (is_saveable c.state = false →
          (some (some 0, 1) : Option (Option Nat × Nat)) = some (none, j))) :=
  ⟨by decide, by decide,
   C2_switch_policy sABC _ (some (some 0, 1)) (by decide) (by decide)⟩

/-- C10: when the current vcpu is `Paused`, `Halted` or `Reset` and no
vcpu is `Ready`, the search falls back to the current vcpu's own slot
and unconditionally promotes it to `Running`, reloading `tick_pending`,
with no register exchange. -/
theorem C10_fallback_promotes (s : Sched) (ci : Nat) (v : VCPU)
    (hWF : SchedWF s) (hc : s.vcpu_current = some ci) (hv : s.vcpus[ci]? = some v)
    (_hst : v.state = VState.Paused ∨ v.state = VState.Halted ∨ v.state = VState.Reset)
    (hnotready : ∀ j, j < s.vcpus.length → stateAt s j ≠ some VState.Ready) :
    ∃ s1, vmm_scheduler_next s = some (s1, none) ∧ s1.vcpu_current = some ci ∧
      stateAt s1 ci = some VState.Running ∧ pendingAt s1 ci = some v.tick_count := by
  have hcl : ci < s.vcpus.length := lt_of_getElem_some hv
  have hlen : 0 < s.vcpus.length := by omega
  obtain ⟨p, hp⟩ := next_some_of_exit s hlen ci hcl (by simp [exitCond, hc])
  obtain ⟨s1, ev⟩ := p
  obtain ⟨j0, nxt0, _, _, hj, hjlt, hnum, hex, hcur1, hbr⟩ := next_some_cases hWF hp
  have hj0ci : j0 = ci := by
    unfold exitCond at hex
    rcases Bool.or_eq_true_iff.mp hex with hready | hcur
    · exact absurd (of_decide_eq_true hready) (hnotready j0 hjlt)
    · have := of_decide_eq_true hcur
      rw [hc] at this
      exact (Option.some.injEq _ _ ▸ this).symm
  subst hj0ci
  have hev : ev = none ∧ s1.vcpus = modifyIdx s.vcpus j0 promote := by
    rcases hbr with ⟨hcnone, _, _⟩ | ⟨ci2, c2, hc02, hcc2, _, hcase⟩
    · rw [hc] at hcnone; cases hcnone
    · have hci2 : ci2 = j0 := by
        rw [hc] at hc02
        exact (Option.some.injEq _ _ ▸ hc02).symm
      rcases hcase with ⟨_, hv1, hevn⟩ | ⟨hij, _, _, _⟩ | ⟨hij, _, _, _, _⟩ | ⟨hij, _, _, _⟩
      · exact ⟨hevn, hv1⟩
      · exact absurd hci2 hij
      · exact absurd hci2 hij
      · exact absurd hci2 hij
  obtain ⟨hevn, hv1⟩ := hev
  subst hevn
  refine ⟨s1, hp, hcur1, ?_, ?_⟩
  · unfold stateAt
    rw [hv1]
    exact modify_promote_state _ _ hcl
  · unfold pendingAt
    rw [hv1, getElem_modifyIdx, if_pos rfl, hv]
    simp [promote]

/-- C10 witness: a `Paused` current vcpu with only a `Halted` peer is
reselected and promoted back to `Running` with its quantum reloaded and
no exchange. -/
theorem C10_witness :
    SchedWF sFall ∧ sFall.vcpu_current = some 0 ∧
    sFall.vcpus[0]? = some ⟨0, VState.Paused, 0, 3, 0, false⟩ ∧
    (∀ j, j < sFall.vcpus.length → stateAt sFall j ≠ some VState.Ready) ∧
    ∃ s1, vmm_scheduler_next sFall = some (s1, none) ∧ s1.vcpu_current = some 0 ∧
      stateAt s1 0 = some VState.Running ∧ pendingAt s1 0 = some 3 :=
  ⟨by decide, by decide, by decide, by decide,
   C10_fallback_promotes sFall 0 ⟨0, VState.Paused, 0, 3, 0, false⟩ (by decide) (by decide)
     (by decide) (Or.inl rfl) (by decide)⟩

/-- C5 (amended): on a timer tick, if there is no current vcpu the
dispatcher is invoked; with `preempt_count > 0` nothing changes; with
`tick_pending = 0` the dispatcher is invoked; otherwise `tick_pending`
is decremented and a registered hook receives the decremented count; the
timer is re-armed exactly once in every branch -- provided the
dispatcher, when invoked, terminates (there is a current vcpu or some
`Ready` vcpu; otherwise the handler never returns and the timer is not
re-armed, see the counterexample). -/
theorem C5_tick_accountant (s : Sched) (hlen : 0 < s.vcpus.length)
    (hterm : vmm_manager_vcpu s.vcpus s.vcpu_current ≠ none ∨
             ∃ j, j < s.vcpus.length ∧ stateAt s j = some VState.Ready) :
    ∃ s1 tev, vmm_scheduler_timer_event s = some (s1, tev) ∧ tev.restarts = 1 ∧
      (vmm_manager_vcpu s.vcpus s.vcpu_current = none → tev.dispatched = true) ∧
      (∀ v, vmm_manager_vcpu s.vcpus s.vcpu_current = some v →
        (v.preempt_count ≠ 0 → s1 = s ∧ tev = ⟨false, none, none, 1⟩) ∧
        (v.preempt_count = 0 → v.tick_pending = 0 → tev.dispatched = true) ∧
        (∀ ci, s.vcpu_current = some ci → v.preempt_count = 0 → v.tick_pending ≠ 0 →
          s1 = { s with vcpus := (modifyIdx s.vcpus ci
                   (fun w => { w with tick_pending := w.tick_pending - 1 })) } ∧
          tev = ⟨false, none,
                 if v.has_tick_func then some (v.tick_pending - 1) else none, 1⟩)) := by
  cases hres : vmm_manager_vcpu s.vcpus s.vcpu_current with
  | none =>
    obtain ⟨p, hp⟩ : ∃ p, vmm_scheduler_next s = some p := by
      rcases hterm with hcur | ⟨j, hj, hready⟩
      · exact absurd hres hcur
      · exact next_some_of_exit s hlen j hj (by simp [exitCond, hready])
    have hcn : s.vcpu_current = none ∨ ∃ ci, s.vcpu_current = some ci ∧ s.vcpus[ci]? = none := by
      cases hcc : s.vcpu_current with
      | none => exact Or.inl rfl
      | some ci =>
        unfold vmm_manager_vcpu at hres
        rw [hcc] at hres
        exact Or.inr ⟨ci, rfl, hres⟩
    have htick : vmm_scheduler_timer_event s =
        some (p.1, ⟨true, p.2, none, 1⟩) := by
      unfold vmm_scheduler_timer_event
      rcases hcn with hcc | ⟨ci, hcc, hnone⟩
      · simp [hcc, vmm_manager_vcpu, hp]
      · simp [hcc, vmm_manager_vcpu, hnone, hp]
    refine ⟨p.1, _, htick, rfl, fun _ => rfl, ?_⟩
    intro v hv
    cases hv
  | some v =>
    obtain ⟨ci, hcc, hvc, hcl⟩ := manager_resolve_some hres
    by_cases hpc : v.preempt_count = 0
    · by_cases hpend : v.tick_pending = 0
      · obtain ⟨p, hp⟩ := next_some_of_exit s hlen ci hcl (by simp [exitCond, hcc])
        have htick : vmm_scheduler_timer_event s =
            some (p.1, ⟨true, p.2, none, 1⟩) := by
          unfold vmm_scheduler_timer_event
          simp [hcc, vmm_manager_vcpu, hvc, hpc, hpend, hp]
        refine ⟨p.1, _, htick, rfl, ?_, ?_⟩
        · intro habs
          cases habs
        · intro w hw
          injection hw with hvw
          subst hvw
          refine ⟨fun habs => absurd hpc habs, fun _ _ => rfl, ?_⟩
          intro ci2 hc2 _ habs
          exact absurd hpend habs
      · have htick : vmm_scheduler_timer_event s =
            some ({ s with vcpus := (modifyIdx s.vcpus ci
                      (fun w => { w with tick_pending := w.tick_pending - 1 })) },
                  ⟨false, none,
                   if v.has_tick_func then some (v.tick_pending - 1) else none, 1⟩) := by
          unfold vmm_scheduler_timer_event
          by_cases hhf : v.has_tick_func = true
          · simp [hcc, vmm_manager_vcpu, hvc, hpc, hpend, hhf]
          · simp [hcc, vmm_manager_vcpu, hvc, hpc, hpend, hhf]
        refine ⟨_, _, htick, rfl, ?_, ?_⟩
        · intro habs
          cases habs
        · intro w hw
          injection hw with hvw
          subst hvw
          refine ⟨fun habs => absurd hpc habs, fun _ hp0 => absurd hp0 hpend, ?_⟩
          intro ci2 hc2 _ _
          have hci2 : ci2 = ci := by
            rw [hcc] at hc2
            exact (Option.some.injEq _ _ ▸ hc2).symm
          subst hci2
          exact ⟨rfl, rfl⟩
    · have htick : vmm_scheduler_timer_event s = some (s, ⟨false, none, none, 1⟩) := by
        unfold vmm_scheduler_timer_event
        simp [hcc, vmm_manager_vcpu, hvc, hpc]
      refine ⟨s, _, htick, rfl, ?_, ?_⟩
      · intro habs
        cases habs
      · intro w hw
        injection hw with hvw
        subst hvw
        refine ⟨fun _ => ⟨rfl, rfl⟩, fun hp0 => absurd hp0 hpc, ?_⟩
        intro ci2 _ hp0 _
        exact absurd hp0 hpc

/-- C5 witness: the three-vcpu scenario state has `preempt_count = 0`
and nonzero `tick_pending`, so the tick decrements `tick_pending`, fires
the hook with the decremented value, and re-arms the timer once. -/
theorem C5_witness :
    0 < sABC.vcpus.length ∧
    (vmm_manager_vcpu sABC.vcpus sABC.vcpu_current ≠ none ∨
      ∃ j, j < sABC.vcpus.length ∧ stateAt sABC j = some VState.Ready) ∧
    ∃ s1 tev, vmm_scheduler_timer_event sABC = some (s1, tev) ∧ tev.restarts = 1 ∧
      (vmm_manager_vcpu sABC.vcpus sABC.vcpu_current = none → tev.dispatched = true) ∧
      (∀ v, vmm_manager_vcpu sABC.vcpus sABC.vcpu_current = some v →
        (v.preempt_count ≠ 0 → s1 = sABC ∧ tev = ⟨false, none, none, 1⟩) ∧
        (v.preempt_count = 0 → v.tick_pending = 0 → tev.dispatched = true) ∧
        (∀ ci, sABC.vcpu_current = some ci → v.preempt_count = 0 → v.tick_pending ≠ 0 →
          s1 = { sABC with vcpus := (modifyIdx sABC.vcpus ci
                   (fun w => { w with tick_pending := w.tick_pending - 1 })) } ∧
          tev = ⟨false, none,
                 if v.has_tick_func then some (v.tick_pending - 1) else none, 1⟩)) :=
  ⟨by decide, Or.inl (by decide),
   C5_tick_accountant sABC (by decide) (Or.inl (by decide))⟩

/-- C5 counterexample: with no current vcpu and no `Ready` vcpu, the
timer handler invokes the dispatcher, which never returns -- the timer
is not re-armed, refuting "in every branch the recurring timer is
re-armed exactly once". -/
theorem C5_counterexample : vmm_scheduler_timer_event sDead2 = none := by decide

theorem cycFromN_length (len start : Nat) : (cycFromN len start).length = len := by
  unfold cycFromN probeSeq
  simp

theorem cycFromN_getElem (len start m : Nat) (hm : m < len) :
    (cycFromN len start)[m]? = some ((start + m) % len) := by
  unfold cycFromN probeSeq
  rw [List.getElem?_map, List.getElem?_range hm]
  rfl

theorem cycFromN_eq_rotate (len start : Nat) (_hstart : start < len) :
    cycFromN len start = (List.range len).rotate start := by
  apply List.ext_getElem?
  intro m
  by_cases hm : m < len
  · rw [cycFromN_getElem len start m hm,
      List.getElem?_rotate (by simpa using hm), List.length_range,
      List.getElem?_range (Nat.mod_lt _ (by omega))]
    simp [Nat.add_comm]
  · have h1 : (cycFromN len start).length ≤ m := by rw [cycFromN_length]; omega
    have h2 : ((List.range len).rotate start).length ≤ m := by
      rw [List.length_rotate, List.length_range]; omega
    rw [List.getElem?_eq_none h1, List.getElem?_eq_none h2]

theorem cycFromN_nodup (len start : Nat) (hstart : start < len) :
    (cycFromN len start).Nodup := by
  rw [cycFromN_eq_rotate len start hstart]
  exact List.nodup_rotate.mpr (List.nodup_range len)

theorem cycFromN_mem (len start j : Nat) (hlen : 0 < len) :
    j ∈ cycFromN len start ↔ j < len :=
  mem_probeSeq_full len start j hlen

/-- Rotating the cyclic tour to just past an element `v` puts the part
after `v` first and `v` itself last. -/
theorem cycFromN_rotate_split (len a : Nat) (hlen : 0 < len) (ha : a < len)
    (D₁ D₂ : List Nat) (v : Nat)
    (hsplit : cycFromN len a = D₁ ++ v :: D₂) :
    cycFromN len ((v + 1) % len) = D₂ ++ D₁ ++ [v] := by
  have hd : D₁.length < len := by
    have hl := congrArg List.length hsplit
    rw [cycFromN_length] at hl
    simp at hl
    omega
  have hv : v = (a + D₁.length) % len := by
    have h1 := cycFromN_getElem len a D₁.length hd
    rw [hsplit, List.getElem?_append, if_neg (by omega)] at h1
    simp at h1
    exact h1
  have hstep : (v + 1) % len = (a + (D₁.length + 1)) % len := by
    rw [hv, Nat.mod_add_mod, Nat.add_assoc]
  have hlenC : (D₁ ++ v :: D₂).length = len := by
    have hl := congrArg List.length hsplit
    rw [cycFromN_length] at hl
    omega
  rw [cycFromN_eq_rotate len _ (Nat.mod_lt _ hlen), hstep]
  rw [show (List.range len).rotate ((a + (D₁.length + 1)) % len)
      = (List.range len).rotate (a + (D₁.length + 1)) by
    rw [← List.rotate_mod (List.range len) (a + (D₁.length + 1)), List.length_range]]
  rw [← List.rotate_rotate, ← cycFromN_eq_rotate len a ha, hsplit]
  rw [List.rotate_eq_drop_append_take (by rw [hlenC]; omega)]
  have hdrop : List.drop (D₁.length + 1) (D₁ ++ v :: D₂) = D₂ := by
    rw [List.drop_append 1]
    rfl
  have htake : List.take (D₁.length + 1) (D₁ ++ v :: D₂) = D₁ ++ [v] := by
    rw [List.take_append 1]
    rfl
  rw [hdrop, htake]
  simp

/-- A `Nodup` list filtered by membership in one of its sublists gives
back exactly that sublist. -/
theorem sublist_filter_mem : ∀ {l t : List Nat}, t.Sublist l → l.Nodup →
    List.filter (fun x => decide (x ∈ t)) l = t := by
  intro l
  induction l with
  | nil =>
    intro t h _
    rw [List.sublist_nil.mp h]
    rfl
  | cons a l ih =>
    intro t h hnd
    rw [List.nodup_cons] at hnd
    cases h with
    | cons _ h2 =>
      have hat : a ∉ t := fun hmem => hnd.1 (h2.subset hmem)
      rw [List.filter_cons_of_neg (by simpa using hat)]
      exact ih h2 hnd.2
    | cons₂ _ h2 =>
      rename_i t'
      rw [List.filter_cons_of_pos (by simp)]
      congr 1
      rw [List.filter_congr (q := fun x => decide (x ∈ t')) ?_]
      · exact ih h2 hnd.2
      · intro x hx
        have hxa : x ≠ a := fun hh => hnd.1 (hh ▸ hx)
        simp [hxa]

theorem sublist_of_append_singleton {t l : List Nat} {x : Nat}
    (h : t.Sublist (l ++ [x])) (hx : x ∉ t) : t.Sublist l := by
  rw [List.sublist_append_iff] at h
  obtain ⟨t₁, t₂, rfl, h₁, h₂⟩ := h
  rcases List.sublist_singleton.mp h₂ with h2 | h2
  · rw [h2, List.append_nil]
    exact h₁
  · rw [h2] at hx
    exact absurd (by simp : x ∈ t₁ ++ [x]) hx

theorem split_of_last {C' D₁ D₂ : List Nat} {e v : Nat}
    (h : C' ++ [e] = D₁ ++ v :: D₂) (hne : v ≠ e) :
    ∃ D₂', D₂ = D₂' ++ [e] ∧ C' = D₁ ++ v :: D₂' := by
  rcases List.eq_nil_or_concat D₂ with h2 | ⟨D₂', d, h2⟩
  · subst h2
    have h3 : C' ++ [e] = D₁ ++ [v] := by simpa using h
    have h4 := List.append_inj' h3 rfl
    have : e = v := by simpa using h4.2
    exact absurd this.symm hne
  · rw [List.concat_eq_append] at h2
    rw [h2, show D₁ ++ v :: (D₂' ++ [d]) = (D₁ ++ v :: D₂') ++ [d] by simp] at h
    have h4 := List.append_inj' h rfl
    have hd : e = d := by simpa using h4.2
    exact ⟨D₂', by rw [h2, hd], h4.1⟩

theorem modifyIdx_num (l : List VCPU) (i k : Nat) (f : VCPU → VCPU)
    (hf : ∀ v, (f v).num = v.num) :
    Option.map VCPU.num (modifyIdx l i f)[k]? = Option.map VCPU.num l[k]? := by
  rw [getElem_modifyIdx]
  by_cases hk : k = i
  · subst hk
    cases l[k]? <;> simp [hf]
  · simp [hk]

theorem filter_pool_eq (todoL : List Nat) (p : Nat → Bool) (D : List Nat)
    (hnd : D.Nodup) (hsub : todoL.Sublist D)
    (hiff : ∀ x, x ∈ D → (p x = true ↔ x ∈ todoL)) :
    List.filter p D = todoL := by
  rw [List.filter_congr (q := fun x => decide (x ∈ todoL)) ?_]
  · exact sublist_filter_mem hsub hnd
  · intro x hx
    have h1 := hiff x hx
    show p x = decide (x ∈ todoL)
    by_cases hmem : x ∈ todoL
    · rw [decide_eq_true hmem]
      exact h1.mpr hmem
    · rw [decide_eq_false hmem]
      cases hpx : p x
      · rfl
      · exact absurd (h1.mp hpx) hmem

/-- Round-robin master induction: if the scheduler is in the invariant
state "current is `v`, which is `Running`; the `Ready` vcpus are exactly
the members of the pool (`L` plus the optional `extra` slot, which sits
last in the cyclic order) other than `v`; and `v` splits `L` as
`done ++ v :: todo`", then the next `todo.length` dispatches select
exactly the indices of `todo`, in order. -/
theorem dispatch_master (len a : Nat) (hlen : 0 < len) (ha : a < len)
    (L : List Nat) (hLsub : L.Sublist (cycFromN len a)) (extra : Option Nat)
    (hextra : ∀ e, extra = some e → e ∉ L ∧ ∃ C', cycFromN len a = C' ++ [e]) :
    ∀ (todo done : List Nat) (v : Nat) (t : Sched),
      L = done ++ v :: todo →
      t.vcpus.length = len → SchedWF t →
      t.vcpu_current = some v →
      stateAt t v = some VState.Running →
      (∀ j, stateAt t j = some VState.Ready ↔ ((j ∈ L ∨ extra = some j) ∧ j ≠ v)) →
      ∃ tfin, dispatchTrace todo.length t = some (todo, tfin) := by
  have hCnd : (cycFromN len a).Nodup := cycFromN_nodup len a ha
  have hLnd : L.Nodup := hLsub.nodup hCnd
  intro todo
  induction todo with
  | nil =>
    intro done v t _ _ _ _ _ _
    exact ⟨t, rfl⟩
  | cons w todo' ih =>
    intro done v t hsplitL hlent hWF hcur hrun hready
    have hvL : v ∈ L := by rw [hsplitL]; simp
    have hwL : w ∈ L := by rw [hsplitL]; simp
    have hvlt : v < len := (cycFromN_mem len a v hlen).mp (hLsub.subset hvL)
    have hwlt : w < len := (cycFromN_mem len a w hlen).mp (hLsub.subset hwL)
    have hvw : v ≠ w := by
      have hnd2 := hLnd
      rw [hsplitL] at hnd2
      have h3 := (List.nodup_append.mp hnd2).2.1
      rw [List.nodup_cons] at h3
      intro hh
      exact h3.1 (by rw [hh]; simp)
    obtain ⟨D₁, D₂, hCsplit, hdone, htodo⟩ :
        ∃ D₁ D₂, cycFromN len a = D₁ ++ v :: D₂ ∧ done ⊆ D₁ ∧
          (w :: todo').Sublist D₂ := by
      have h0 : (done ++ v :: (w :: todo')).Sublist (cycFromN len a) := by
        rw [← hsplitL]
        exact hLsub
      rw [List.append_sublist_iff] at h0
      obtain ⟨r₁, r₂, hC, hr₁, hr₂⟩ := h0
      rw [List.cons_sublist_iff] at hr₂
      obtain ⟨q₁, q₂, hr₂eq, hvq, hq₂⟩ := hr₂
      obtain ⟨qa, qb, hq₁⟩ := List.append_of_mem hvq
      refine ⟨r₁ ++ qa, qb ++ q₂, ?_, ?_, ?_⟩
      · rw [hC, hr₂eq, hq₁]
        simp
      · intro x hx
        exact List.mem_append.mpr (Or.inl (hr₁.subset hx))
      · exact hq₂.trans (List.sublist_append_right qb q₂)
    have hCnd2 := hCnd
    rw [hCsplit] at hCnd2
    have hvD₂ : v ∉ D₂ := by
      have h3 := (List.nodup_append.mp hCnd2).2.1
      exact (List.nodup_cons.mp h3).1
    have hdisj : ∀ x, x ∈ D₁ → x ∉ v :: D₂ := (List.nodup_append.mp hCnd2).2.2
    have hD₂nd : D₂.Nodup := by
      have h3 := (List.nodup_append.mp hCnd2).2.1
      exact (List.nodup_cons.mp h3).2
    obtain ⟨vc, hvc⟩ : ∃ vc, t.vcpus[v]? = some vc :=
      ⟨_, List.getElem?_eq_getElem (by omega)⟩
    have hvcnum : vc.num = v := by
      have h3 := hWF.1 v (by omega)
      rw [hvc] at h3
      simpa using h3
    have hvcstate : vc.state = VState.Running := by
      unfold stateAt at hrun
      rw [hvc] at hrun
      simpa using hrun
    have hstart : startIdx t = (v + 1) % len := by
      unfold startIdx vmm_manager_vcpu
      simp [hcur, hvc, hvcnum, hlent]
    have hrot : cycFromN len ((v + 1) % len) = D₂ ++ D₁ ++ [v] :=
      cycFromN_rotate_split len a hlen ha D₁ D₂ v hCsplit
    have hq : ∀ j, exitCond t j =
        decide ((j ∈ L ∨ extra = some j) ∨ j = v) := by
      intro j
      unfold exitCond
      rw [← Bool.decide_or, decide_eq_decide, hcur]
      constructor
      · rintro (hr | hcj)
        · exact Or.inl ((hready j).mp hr).1
        · exact Or.inr (Option.some.inj hcj).symm
      · rintro (hml | rfl)
        · by_cases hjv : j = v
          · exact Or.inr (by rw [hjv])
          · exact Or.inl ((hready j).mpr ⟨hml, hjv⟩)
        · exact Or.inr rfl
    have hmemLD₂ : ∀ x, x ∈ D₂ → (x ∈ L ↔ x ∈ w :: todo') := by
      intro x hx
      constructor
      · intro hxl
        rw [hsplitL] at hxl
        rcases List.mem_append.mp hxl with hxd | hxv
        · exact absurd (List.mem_cons_of_mem v hx) (fun hh => hdisj x (hdone hxd) hh)
      -- hxv : x ∈ v :: w :: todo'
        · rcases List.mem_cons.mp hxv with rfl | hxt
          · exact absurd hx hvD₂
          · exact hxt
      · intro hxt
        rw [hsplitL]
        simp [hxt]
    have hsubL : ∀ x, x ∈ w :: todo' → x ∈ L := by
      intro x hx
      rw [hsplitL]
      exact List.mem_append.mpr (Or.inr (List.mem_cons.mpr (Or.inr hx)))
    have hFD₂ : ∃ tail : List Nat,
        List.filter (fun j => decide ((j ∈ L ∨ extra = some j) ∨ j = v)) D₂ =
          (w :: todo') ++ tail := by
      cases hextra2 : extra with
      | none =>
        refine ⟨[], ?_⟩
        rw [List.append_nil]
        refine filter_pool_eq (w :: todo') _ D₂ hD₂nd htodo ?_
        intro x hx
        simp only [decide_eq_true_eq]
        have hxv : x ≠ v := fun hh => hvD₂ (hh ▸ hx)
        constructor
        · rintro ((hxl | habs) | habs)
          · exact (hmemLD₂ x hx).mp hxl
          · cases habs
          · exact absurd habs hxv
        · intro hxt
          exact Or.inl (Or.inl ((hmemLD₂ x hx).mpr hxt))
      | some e =>
        obtain ⟨heL, C', hC'⟩ := hextra e hextra2
        have hvne : v ≠ e := fun hh => heL (hh ▸ hvL)
        obtain ⟨D₂', hD₂eq, hC'eq⟩ := split_of_last (hC'.symm.trans hCsplit) hvne
        have hD₂'nd : D₂'.Nodup := by
          rw [hD₂eq] at hD₂nd
          exact hD₂nd.of_append_left
        have heD₂' : e ∉ D₂' := by
          rw [hD₂eq] at hD₂nd
          have hdd := (List.nodup_append.mp hD₂nd).2.2
          intro hh
          exact hdd hh (by simp)
        have htodosub : (w :: todo').Sublist D₂' := by
          refine sublist_of_append_singleton (hD₂eq ▸ htodo) ?_
          intro hh
          exact heL (hsubL e hh)
        have hFD₂' : List.filter (fun j => decide ((j ∈ L ∨ some e = some j) ∨ j = v)) D₂'
            = w :: todo' := by
          refine filter_pool_eq (w :: todo') _ D₂' hD₂'nd htodosub ?_
          intro x hx
          simp only [decide_eq_true_eq]
          have hxD₂ : x ∈ D₂ := by
            rw [hD₂eq]
            exact List.mem_append.mpr (Or.inl hx)
          have hxv : x ≠ v := fun hh => hvD₂ (hh ▸ hxD₂)
          have hxe : x ≠ e := fun hh => heD₂' (hh ▸ hx)
          constructor
          · rintro ((hxl | habs) | habs)
            · exact (hmemLD₂ x hxD₂).mp hxl
            · exact absurd (Option.some.inj habs).symm hxe
            · exact absurd habs hxv
          · intro hxt
            exact Or.inl (Or.inl ((hmemLD₂ x hxD₂).mpr hxt))
        refine ⟨[e], ?_⟩
        rw [hD₂eq, List.filter_append, hFD₂']
        have hfe : List.filter (fun j => decide ((j ∈ L ∨ some e = some j) ∨ j = v)) [e]
            = [e] := by
          simp
        rw [hfe]
    obtain ⟨tail, hFD₂eq⟩ := hFD₂
    have hfilter :
        List.filter (exitCond t) (cycFromN t.vcpus.length (startIdx t)) =
          w :: (todo' ++ (tail ++
            List.filter (fun j => decide ((j ∈ L ∨ extra = some j) ∨ j = v)) D₁ ++ [v])) := by
      rw [hlent, hstart, hrot,
        List.filter_congr (fun x _ => hq x), List.filter_append, List.filter_append,
        hFD₂eq]
      have hfv : List.filter (fun j => decide ((j ∈ L ∨ extra = some j) ∨ j = v)) [v]
          = [v] := by
        simp
      rw [hfv]
      simp
    have hprobe : probeLoop t.vcpus t.vcpu_current t.vcpus.length (startIdx t)
        = some w := by
      rw [probeLoop_head t (startIdx t) (by rw [hlent, hstart]; exact Nat.mod_lt _ hlen),
        hfilter]
      rfl
    obtain ⟨wc, hwc⟩ : ∃ wc, t.vcpus[w]? = some wc :=
      ⟨_, List.getElem?_eq_getElem (by omega)⟩
    have hwcnum : wc.num = w := by
      have h3 := hWF.1 w (by omega)
      rw [hwc] at h3
      simpa using h3
    have hnumne : vc.num ≠ wc.num := by
      rw [hvcnum, hwcnum]
      exact hvw
    have hnext := next_eq_switch_running t v w vc wc hcur hvc hprobe hwc hnumne hvcstate
    set t1 : Sched :=
      { vcpus := modifyIdx (modifyIdx t.vcpus v demote) w promote,
        vcpu_current := some wc.num } with ht1
    have hlent1 : t1.vcpus.length = len := by
      rw [ht1]
      show (modifyIdx (modifyIdx t.vcpus v demote) w promote).length = len
      rw [modifyIdx_length, modifyIdx_length, hlent]
    have hWF1 : SchedWF t1 := by
      constructor
      · intro i hi
        rw [hlent1] at hi
        show Option.map VCPU.num (modifyIdx (modifyIdx t.vcpus v demote) w promote)[i]?
          = some i
        rw [modifyIdx_num (modifyIdx t.vcpus v demote) w i promote (fun x => rfl),
          modifyIdx_num t.vcpus v i demote (fun x => rfl)]
        exact hWF.1 i (by omega)
      · left
        show (some wc.num).getD 0 < (modifyIdx (modifyIdx t.vcpus v demote) w promote).length
        rw [modifyIdx_length, modifyIdx_length, hlent]
        simpa [hwcnum] using hwlt
    have hcur1 : t1.vcpu_current = some w := by
      rw [ht1]
      show some wc.num = some w
      rw [hwcnum]
    have hrun1 : stateAt t1 w = some VState.Running := by
      unfold stateAt
      rw [ht1]
      refine modify_promote_state _ _ ?_
      rw [modifyIdx_length, hlent]
      exact hwlt
    have hready1 : ∀ j, stateAt t1 j = some VState.Ready ↔
        ((j ∈ L ∨ extra = some j) ∧ j ≠ w) := by
      intro j
      unfold stateAt
      rw [ht1]
      show Option.map VCPU.state (modifyIdx (modifyIdx t.vcpus v demote) w promote)[j]?
          = some VState.Ready ↔ _
      rw [getElem_modifyIdx, getElem_modifyIdx]
      by_cases hjw : j = w
      · subst hjw
        rw [if_pos rfl]
        by_cases hjv : j = v
        · exact absurd hjv.symm hvw
        · rw [if_neg hjv, hwc]
          simp [promote]
      · rw [if_neg hjw]
        by_cases hjv : j = v
        · subst hjv
          rw [if_pos rfl, hvc]
          constructor
          · intro _
            exact ⟨Or.inl hvL, hjw⟩
          · intro _
            rfl
        · rw [if_neg hjv]
          have h3 := hready j
          unfold stateAt at h3
          rw [h3]
          constructor
          · rintro ⟨hm, _⟩
            exact ⟨hm, hjw⟩
          · rintro ⟨hm, _⟩
            exact ⟨hm, hjv⟩
    have hsplitL1 : L = (done ++ [v]) ++ w :: todo' := by
      rw [hsplitL]
      simp
    obtain ⟨tfin, htr⟩ := ih (done ++ [v]) w t1 hsplitL1 hlent1 hWF1 hcur1 hrun1 hready1
    refine ⟨tfin, ?_⟩
    show dispatchTrace (todo'.length + 1) t = some (w :: todo', tfin)
    unfold dispatchTrace
    rw [hnext]
    simp only [hcur1, htr]
    rw [hwcnum]

theorem cycFromN_last (len c : Nat) (hlen : 0 < len) (hc : c < len) :
    cycFromN len ((c + 1) % len) =
      probeSeq len (len - 1) ((c + 1) % len) ++ [c] := by
  obtain ⟨k, rfl⟩ : ∃ k, len = k + 1 := ⟨len - 1, by omega⟩
  have hf : ((c + 1) % (k + 1) + k) % (k + 1) = c := by
    rw [Nat.mod_add_mod]
    rw [show c + 1 + k = c + (k + 1) by omega, Nat.add_mod_right, Nat.mod_eq_of_lt hc]
  unfold cycFromN probeSeq
  rw [List.range_succ, List.map_append, List.map_cons, List.map_nil, hf]
  simp

theorem mem_readyCyc (s : Sched) (hlen : 0 < s.vcpus.length) (j : Nat) :
    j ∈ readyCyc s (startIdx s) ↔ stateAt s j = some VState.Ready := by
  unfold readyCyc
  rw [List.mem_filter]
  constructor
  · rintro ⟨_, hp⟩
    exact of_decide_eq_true hp
  · intro hj
    have hjlt : j < s.vcpus.length := by
      unfold stateAt at hj
      cases hv : s.vcpus[j]? with
      | none => rw [hv] at hj; cases hj
      | some z => exact lt_of_getElem_some hv
    exact ⟨(cycFromN_mem _ _ _ hlen).mpr hjlt, decide_eq_true hj⟩

theorem readyCyc_sublist (s : Sched) :
    (readyCyc s (startIdx s)).Sublist (cycFromN s.vcpus.length (startIdx s)) := by
  unfold readyCyc
  exact List.filter_sublist _

theorem readyCyc_nodup (s : Sched) (hlen : 0 < s.vcpus.length) :
    (readyCyc s (startIdx s)).Nodup :=
  (readyCyc_sublist s).nodup (cycFromN_nodup _ _ (startIdx_lt s hlen))

/-- First-dispatch continuation for the cases where the registry update
is a single promotion of the selected vcpu `w` (no current, current
reselected, saveable non-`Running` current, or cold switch): the first
dispatch selects `w` and the remaining `Ready` vcpus follow in order. -/
theorem base_step_simple (s : Sched) (hWF : SchedWF s) (hlen : 0 < s.vcpus.length)
    (w : Nat) (todo' : List Nat) (hL : readyCyc s (startIdx s) = w :: todo')
    (wc : VCPU) (hwc : s.vcpus[w]? = some wc) (hwlt : w < s.vcpus.length)
    (ev : Option (Option Nat × Nat))
    (hnext : vmm_scheduler_next s =
      some (Sched.mk (modifyIdx s.vcpus w promote) (some wc.num), ev)) :
    ∃ tfin, dispatchTrace (w :: todo').length s = some (w :: todo', tfin) := by
  have ha : startIdx s < s.vcpus.length := startIdx_lt s hlen
  have hwcnum : wc.num = w := by
    have h3 := hWF.1 w hwlt
    rw [hwc] at h3
    simpa using h3
  have hmemL : ∀ j, j ∈ w :: todo' ↔ stateAt s j = some VState.Ready := by
    intro j
    rw [← hL]
    exact mem_readyCyc s hlen j
  have hLsub : (w :: todo').Sublist (cycFromN s.vcpus.length (startIdx s)) := by
    rw [← hL]
    exact readyCyc_sublist s
  have hlen1 : (Sched.mk (modifyIdx s.vcpus w promote) (some wc.num)).vcpus.length
      = s.vcpus.length := by
    show (modifyIdx s.vcpus w promote).length = s.vcpus.length
    rw [modifyIdx_length]
  have hWF1 : SchedWF (Sched.mk (modifyIdx s.vcpus w promote) (some wc.num)) := by
    constructor
    · intro i hi
      rw [hlen1] at hi
      show Option.map VCPU.num (modifyIdx s.vcpus w promote)[i]? = some i
      rw [modifyIdx_num s.vcpus w i promote (fun x => rfl)]
      exact hWF.1 i hi
    · left
      show (some wc.num).getD 0 < (modifyIdx s.vcpus w promote).length
      rw [modifyIdx_length]
      simpa [hwcnum] using hwlt
  have hcur1 : (Sched.mk (modifyIdx s.vcpus w promote) (some wc.num)).vcpu_current
      = some w := by
    show some wc.num = some w
    rw [hwcnum]
  have hrun1 : stateAt (Sched.mk (modifyIdx s.vcpus w promote) (some wc.num)) w
      = some VState.Running :=
    modify_promote_state s.vcpus w hwlt
  have hready1 : ∀ j, stateAt (Sched.mk (modifyIdx s.vcpus w promote) (some wc.num)) j
      = some VState.Ready ↔
      ((j ∈ w :: todo' ∨ (none : Option Nat) = some j) ∧ j ≠ w) := by
    intro j
    show Option.map VCPU.state (modifyIdx s.vcpus w promote)[j]? = some VState.Ready ↔ _
    rw [getElem_modifyIdx]
    by_cases hjw : j = w
    · subst hjw
      rw [if_pos rfl, hwc]
      constructor
      · intro hh
        simp [promote] at hh
      · rintro ⟨_, hh⟩
        exact absurd rfl hh
    · rw [if_neg hjw]
      constructor
      · intro hh
        exact ⟨Or.inl ((hmemL j).mpr hh), hjw⟩
      · rintro ⟨hm | habs, _⟩
        · exact (hmemL j).mp hm
        · cases habs
  obtain ⟨tfin, htr⟩ := dispatch_master s.vcpus.length (startIdx s) hlen ha
    (w :: todo') hLsub none (fun e he => Option.noConfusion he) todo' [] w
    (Sched.mk (modifyIdx s.vcpus w promote) (some wc.num))
    rfl hlen1 hWF1 hcur1 hrun1 hready1
  refine ⟨tfin, ?_⟩
  show dispatchTrace (todo'.length + 1) s = some (w :: todo', tfin)
  unfold dispatchTrace
  rw [hnext]
  simp only [hcur1, htr]
  rw [hwcnum]

/-- First-dispatch continuation for the case of a `Running` current
vcpu `ci`: it is demoted and joins the pool after all initially-`Ready`
vcpus, since its slot sits last in the cyclic probe order. -/
theorem base_step_running (s : Sched) (hWF : SchedWF s) (hlen : 0 < s.vcpus.length)
    (w ci : Nat) (todo' : List Nat) (hL : readyCyc s (startIdx s) = w :: todo')
    (wc c : VCPU) (hwc : s.vcpus[w]? = some wc) (hwlt : w < s.vcpus.length)
    (hcc : s.vcpus[ci]? = some c) (hcil : ci < s.vcpus.length)
    (hciL : ci ∉ w :: todo') (hwci : w ≠ ci)
    (hlast : ∃ C', cycFromN s.vcpus.length (startIdx s) = C' ++ [ci])
    (hnext : vmm_scheduler_next s =
      some (Sched.mk (modifyIdx (modifyIdx s.vcpus ci demote) w promote) (some wc.num),
            some (some c.num, wc.num))) :
    ∃ tfin, dispatchTrace (w :: todo').length s = some (w :: todo', tfin) := by
  have ha : startIdx s < s.vcpus.length := startIdx_lt s hlen
  have hwcnum : wc.num = w := by
    have h3 := hWF.1 w hwlt
    rw [hwc] at h3
    simpa using h3
  have hmemL : ∀ j, j ∈ w :: todo' ↔ stateAt s j = some VState.Ready := by
    intro j
    rw [← hL]
    exact mem_readyCyc s hlen j
  have hLsub : (w :: todo').Sublist (cycFromN s.vcpus.length (startIdx s)) := by
    rw [← hL]
    exact readyCyc_sublist s
  have hlen1 : (Sched.mk (modifyIdx (modifyIdx s.vcpus ci demote) w promote)
      (some wc.num)).vcpus.length = s.vcpus.length := by
    show (modifyIdx (modifyIdx s.vcpus ci demote) w promote).length = s.vcpus.length
    rw [modifyIdx_length, modifyIdx_length]
  have hWF1 : SchedWF (Sched.mk (modifyIdx (modifyIdx s.vcpus ci demote) w promote)
      (some wc.num)) := by
    constructor
    · intro i hi
      rw [hlen1] at hi
      show Option.map VCPU.num (modifyIdx (modifyIdx s.vcpus ci demote) w promote)[i]?
        = some i
      rw [modifyIdx_num (modifyIdx s.vcpus ci demote) w i promote (fun x => rfl),
        modifyIdx_num s.vcpus ci i demote (fun x => rfl)]
      exact hWF.1 i hi
    · left
      show (some wc.num).getD 0 <
        (modifyIdx (modifyIdx s.vcpus ci demote) w promote).length
      rw [modifyIdx_length, modifyIdx_length]
      simpa [hwcnum] using hwlt
  have hcur1 : (Sched.mk (modifyIdx (modifyIdx s.vcpus ci demote) w promote)
      (some wc.num)).vcpu_current = some w := by
    show some wc.num = some w
    rw [hwcnum]
  have hrun1 : stateAt (Sched.mk (modifyIdx (modifyIdx s.vcpus ci demote) w promote)
      (some wc.num)) w = some VState.Running := by
    refine modify_promote_state _ _ ?_
    rw [modifyIdx_length]
    exact hwlt
  have hready1 : ∀ j, stateAt (Sched.mk (modifyIdx (modifyIdx s.vcpus ci demote) w promote)
      (some wc.num)) j = some VState.Ready ↔
      ((j ∈ w :: todo' ∨ some ci = some j) ∧ j ≠ w) := by
    intro j
    show Option.map VCPU.state
        (modifyIdx (modifyIdx s.vcpus ci demote) w promote)[j]? = some VState.Ready ↔ _
    rw [getElem_modifyIdx, getElem_modifyIdx]
    by_cases hjw : j = w
    · subst hjw
      rw [if_pos rfl]
      by_cases hjci : j = ci
      · exact absurd hjci hwci
      · rw [if_neg hjci, hwc]
        constructor
        · intro hh
          simp [promote] at hh
        · rintro ⟨_, hh⟩
          exact absurd rfl hh
    · rw [if_neg hjw]
      by_cases hjci : j = ci
      · subst hjci
        rw [if_pos rfl, hcc]
        constructor
        · intro _
          exact ⟨Or.inr rfl, hjw⟩
        · intro _
          rfl
      · rw [if_neg hjci]
        constructor
        · intro hh
          exact ⟨Or.inl ((hmemL j).mpr hh), hjw⟩
        · rintro ⟨hm | habs, _⟩
          · exact (hmemL j).mp hm
          · exact absurd (Option.some.inj habs).symm hjci
  have hextra : ∀ e, (some ci : Option Nat) = some e →
      e ∉ w :: todo' ∧ ∃ C', cycFromN s.vcpus.length (startIdx s) = C' ++ [e] := by
    intro e he
    have : ci = e := Option.some.inj he
    subst this
    exact ⟨hciL, hlast⟩
  obtain ⟨tfin, htr⟩ := dispatch_master s.vcpus.length (startIdx s) hlen ha
    (w :: todo') hLsub (some ci) hextra todo' [] w
    (Sched.mk (modifyIdx (modifyIdx s.vcpus ci demote) w promote) (some wc.num))
    rfl hlen1 hWF1 hcur1 hrun1 hready1
  refine ⟨tfin, ?_⟩
  show dispatchTrace (todo'.length + 1) s = some (w :: todo', tfin)
  unfold dispatchTrace
  rw [hnext]
  simp only [hcur1, htr]
  rw [hwcnum]

/-- From any well-formed state with at least one `Ready` vcpu, the first
`|Ready|` dispatches select exactly the `Ready` vcpus in cyclic probe
order starting from the dispatcher's initial candidate index. -/
theorem dispatch_trace_full (s : Sched) (hWF : SchedWF s) (hlen : 0 < s.vcpus.length)
    (w : Nat) (todo' : List Nat) (hL : readyCyc s (startIdx s) = w :: todo') :
    ∃ tfin, dispatchTrace (w :: todo').length s = some (w :: todo', tfin) := by
  have ha : startIdx s < s.vcpus.length := startIdx_lt s hlen
  have hmemL : ∀ j, j ∈ w :: todo' ↔ stateAt s j = some VState.Ready := by
    intro j
    rw [← hL]
    exact mem_readyCyc s hlen j
  have hwReady : stateAt s w = some VState.Ready := (hmemL w).mp (by simp)
  have hwlt : w < s.vcpus.length := by
    unfold stateAt at hwReady
    cases hv : s.vcpus[w]? with
    | none => rw [hv] at hwReady; cases hwReady
    | some z => exact lt_of_getElem_some hv
  obtain ⟨wc, hwc⟩ : ∃ wc, s.vcpus[w]? = some wc :=
    ⟨_, List.getElem?_eq_getElem hwlt⟩
  have hwcnum : wc.num = w := by
    have h3 := hWF.1 w hwlt
    rw [hwc] at h3
    simpa using h3
  cases hres : vmm_manager_vcpu s.vcpus s.vcpu_current with
  | none =>
    have hcur : s.vcpu_current = none := by
      cases hc2 : s.vcpu_current with
      | none => rfl
      | some ci =>
        rcases hWF.2 with hlt | hnone
        · rw [hc2] at hlt
          simp at hlt
          have hres2 : s.vcpus[ci]? = none := by
            rw [hc2] at hres
            exact hres
          rw [List.getElem?_eq_getElem (by omega)] at hres2
          cases hres2
        · rw [hc2] at hnone
          cases hnone
    have hfeq : List.filter (exitCond s) (cycFromN s.vcpus.length (startIdx s))
        = w :: todo' := by
      rw [List.filter_congr (q := fun j => decide (stateAt s j = some VState.Ready)) ?_]
      · exact hL
      · intro x _
        show exitCond s x = decide (stateAt s x = some VState.Ready)
        unfold exitCond
        rw [hcur]
        simp
    have hprobe : probeLoop s.vcpus s.vcpu_current s.vcpus.length (startIdx s)
        = some w := by
      rw [probeLoop_head s (startIdx s) ha, hfeq]
      rfl
    exact base_step_simple s hWF hlen w todo' hL wc hwc hwlt _
      (next_eq_nocur s w wc hcur hprobe hwc)
  | some c =>
    obtain ⟨ci, hcur, hcc, hcil⟩ := manager_resolve_some hres
    have hcnum : c.num = ci := by
      have h3 := hWF.1 ci hcil
      rw [hcc] at h3
      simpa using h3
    have hadef : startIdx s = (ci + 1) % s.vcpus.length := by
      unfold startIdx
      rw [hres]
      simp [hcnum]
    have hlast : cycFromN s.vcpus.length (startIdx s) =
        probeSeq s.vcpus.length (s.vcpus.length - 1) (startIdx s) ++ [ci] := by
      rw [hadef]
      exact cycFromN_last s.vcpus.length ci hlen hcil
    have hciC' : ci ∉ probeSeq s.vcpus.length (s.vcpus.length - 1) (startIdx s) := by
      have hnd := cycFromN_nodup s.vcpus.length (startIdx s) ha
      rw [hlast] at hnd
      have hdd := (List.nodup_append.mp hnd).2.2
      intro hh
      exact hdd hh (by simp)
    have hfeq : ∃ tail0, List.filter (exitCond s) (cycFromN s.vcpus.length (startIdx s))
        = (w :: todo') ++ tail0 := by
      rw [hlast, List.filter_append]
      have h1 : List.filter (exitCond s) [ci] = [ci] := by
        have hex : exitCond s ci = true := by
          unfold exitCond
          rw [hcur]
          simp
        simp [hex]
      have h2 : List.filter (exitCond s)
          (probeSeq s.vcpus.length (s.vcpus.length - 1) (startIdx s)) =
          List.filter (fun j => decide (stateAt s j = some VState.Ready))
            (probeSeq s.vcpus.length (s.vcpus.length - 1) (startIdx s)) := by
        refine List.filter_congr ?_
        intro x hx
        have hxci : x ≠ ci := fun hh => hciC' (hh ▸ hx)
        show exitCond s x = decide (stateAt s x = some VState.Ready)
        unfold exitCond
        rw [hcur]
        have h5 : decide (some ci = some x) = false := by
          simp
          exact fun hh => hxci hh.symm
        rw [h5, Bool.or_false]
      have hLfull : List.filter (fun j => decide (stateAt s j = some VState.Ready))
            (probeSeq s.vcpus.length (s.vcpus.length - 1) (startIdx s)) ++
          List.filter (fun j => decide (stateAt s j = some VState.Ready)) [ci]
          = w :: todo' := by
        rw [← List.filter_append, ← hlast]
        exact hL
      rw [h1, h2]
      by_cases hpci : stateAt s ci = some VState.Ready
      · have h3 : List.filter (fun j => decide (stateAt s j = some VState.Ready)) [ci]
            = [ci] := by simp [hpci]
        rw [h3] at hLfull
        exact ⟨[], by rw [List.append_nil]; exact hLfull⟩
      · have h3 : List.filter (fun j => decide (stateAt s j = some VState.Ready)) [ci]
            = [] := by simp [hpci]
        rw [h3, List.append_nil] at hLfull
        exact ⟨[ci], by rw [hLfull]⟩
    obtain ⟨tail0, hfeq⟩ := hfeq
    have hprobe : probeLoop s.vcpus s.vcpu_current s.vcpus.length (startIdx s)
        = some w := by
      rw [probeLoop_head s (startIdx s) ha, hfeq]
      rfl
    by_cases hcRun : c.state = VState.Running
    · have hciL : ci ∉ w :: todo' := by
        intro hh
        have h4 := (hmemL ci).mp hh
        unfold stateAt at h4
        rw [hcc] at h4
        simp [hcRun] at h4
      have hwci : w ≠ ci := fun hh => hciL (hh ▸ List.mem_cons_self w todo')
      have hnumne : c.num ≠ wc.num := by
        rw [hcnum, hwcnum]
        intro hh
        exact hwci hh.symm
      exact base_step_running s hWF hlen w ci todo' hL wc c hwc hwlt hcc hcil hciL hwci
        ⟨_, hlast⟩
        (next_eq_switch_running s ci w c wc hcur hcc hprobe hwc hnumne hcRun)
    · by_cases hsame : w = ci
      · have hnum2 : c.num = wc.num := by
          rw [hcnum, hwcnum, hsame]
        exact base_step_simple s hWF hlen w todo' hL wc hwc hwlt _
          (next_eq_self s ci w c wc hcur hcc hprobe hwc hnum2)
      · have hnumne : c.num ≠ wc.num := by
          rw [hcnum, hwcnum]
          intro hh
          exact hsame hh.symm
        by_cases hsav : is_saveable c.state = true
        · exact base_step_simple s hWF hlen w todo' hL wc hwc hwlt _
            (next_eq_switch_saveable s ci w c wc hcur hcc hprobe hwc hnumne hsav hcRun)
        · exact base_step_simple s hWF hlen w todo' hL wc hwc hwlt _
            (next_eq_switch_cold s ci w c wc hcur hcc hprobe hwc hnumne
              (by simpa using hsav))

/-- C1: the dispatcher probes from `(current + 1) mod N` (0 with no
current), exiting on the first index in that cyclic order that is
`Ready` or equals the current index (first conjunct); consequently, for
at least one `Ready` vcpu and readiness otherwise unchanged, repeated
dispatch visits every `Ready` vcpu exactly once -- the selection trace of
the first `|Ready|` dispatches is exactly the duplicate-free list of
`Ready` indices in cyclic order from the start index. -/
theorem C1_round_robin (s : Sched) (hWF : SchedWF s) (hlen : 0 < s.vcpus.length)
    (hne : readyCyc s (startIdx s) ≠ []) :
    probeLoop s.vcpus s.vcpu_current s.vcpus.length (startIdx s) =
      ((cycFromN s.vcpus.length (startIdx s)).filter (exitCond s)).head? ∧
    (readyCyc s (startIdx s)).Nodup ∧
    (∀ j, j ∈ readyCyc s (startIdx s) ↔ stateAt s j = some VState.Ready) ∧
    ∃ tfin, dispatchTrace (readyCyc s (startIdx s)).length s =
      some (readyCyc s (startIdx s), tfin) := by
  refine ⟨probeLoop_head s (startIdx s) (startIdx_lt s hlen), readyCyc_nodup s hlen,
    fun j => mem_readyCyc s hlen j, ?_⟩
  cases hL : readyCyc s (startIdx s) with
  | nil => exact absurd hL hne
  | cons w todo' => exact dispatch_trace_full s hWF hlen w todo' hL

/-- C1 witness: from the three-vcpu scenario state (current 0 `Running`,
vcpus 1 and 2 `Ready`), the `Ready` round is `[1, 2]`, visited exactly
once each by two dispatches. -/
theorem C1_witness :
    SchedWF sABC ∧ 0 < sABC.vcpus.length ∧ readyCyc sABC (startIdx sABC) ≠ [] ∧
    (probeLoop sABC.vcpus sABC.vcpu_current sABC.vcpus.length (startIdx sABC) =
        ((cycFromN sABC.vcpus.length (startIdx sABC)).filter (exitCond sABC)).head? ∧
      (readyCyc sABC (startIdx sABC)).Nodup ∧
      (∀ j, j ∈ readyCyc sABC (startIdx sABC) ↔ stateAt sABC j = some VState.Ready) ∧
      ∃ tfin, dispatchTrace (readyCyc sABC (startIdx sABC)).length sABC =
        some (readyCyc sABC (startIdx sABC), tfin)) :=
  ⟨by decide, by decide, by decide,
   C1_round_robin sABC (by decide) (by decide) (by decide)⟩

end VmmSched
